import Mathlib

/-!
Verification of the face-selection and legend-placement core of the
FreeCAD keyboard-key generator.

The repository contains two parallel pipelines:
* the `batch_keycaps_export_stl_ui` package (`face_utils.py`, `core.py`,
  `geometry_utils.py`, `exporter.py`), embedded below under plain names
  or names carrying a `_ui` marker;
* `keycap_exporter_core.py` / `keycap_exporter_run.py`, embedded below
  under names carrying a `_core` marker.

Machine floats are modelled as exact rationals (ℚ).  The square root
used by `Vector.Length` is modelled by an exact rational square root
`ratSqrt : ℚ → Option ℚ`; theorems about normalisation either
hypothesise or exhibit rational lengths, so the `none` branch (an
artifact of exact arithmetic, impossible over ℝ) never fires in any
statement proved here.

Faces of a boundary-representation solid are abstracted to the two
queries the code makes of them: the normal evaluated at the midpoint of
the parameter range (`none` models `face.normalAt` raising an
exception) and the centroid (`face.CenterOfMass`).  Solids and shapes
are abstracted to finite point sets (lists of vectors) so that
translation, placement, extrusion and the boolean `fuse` / `cut`
kernel calls have genuine pointwise semantics.
-/

namespace KeycapGen

/-- A 3-vector with rational coordinates, modelling `FreeCAD.Vector`. -/
@[ext]
structure Vec where
  x : ℚ
  y : ℚ
  z : ℚ
deriving DecidableEq, Repr

/-- Dot product, modelling `Vector.dot`. -/
def dot (a b : Vec) : ℚ := a.x * b.x + a.y * b.y + a.z * b.z

/-- Cross product, modelling `Vector.cross`. -/
def cross (a b : Vec) : Vec :=
  ⟨a.y * b.z - a.z * b.y, a.z * b.x - a.x * b.z, a.x * b.y - a.y * b.x⟩

/-- Scalar multiple, modelling `Vector.multiply`. -/
def smul (c : ℚ) (v : Vec) : Vec := ⟨c * v.x, c * v.y, c * v.z⟩

/-- Componentwise sum of vectors. -/
def vadd (a b : Vec) : Vec := ⟨a.x + b.x, a.y + b.y, a.z + b.z⟩

/-- Componentwise negation of a vector. -/
def vneg (a : Vec) : Vec := ⟨-a.x, -a.y, -a.z⟩

/-- Squared length of a vector (`Vector.Length` squared), exact in ℚ. -/
def normSq (v : Vec) : ℚ := dot v v

/-- One Heron step for the integer square root. -/
def isqrtStep (n g : Nat) : Nat := (g + n / g) / 2

/-- Fuel-bounded Heron iteration (kernel-reducible, unlike the
well-founded `Nat.sqrt`). -/
def isqrtAux (n : Nat) : Nat → Nat → Nat
  | 0, g => g
  | fuel + 1, g =>
    if isqrtStep n g < g then isqrtAux n fuel (isqrtStep n g) else g

/-- Integer square root candidate.  Its correctness is never assumed:
`ratSqrt` checks the candidate post hoc, so only the check matters. -/
def isqrt (n : Nat) : Nat := if n ≤ 1 then n else isqrtAux n 200 n

/-- Exact rational square root: `some r` with `r ≥ 0` and `r * r = q`
whenever the candidate square root verifies, `none` otherwise.  Models
the float `sqrt` underlying `Vector.Length` on the subdomain where the
length is rational. -/
def ratSqrt (q : ℚ) : Option ℚ :=
  if 0 ≤ q.num ∧ isqrt q.num.toNat * isqrt q.num.toNat = q.num.toNat ∧
      isqrt q.den * isqrt q.den = q.den then
    some (mkRat (isqrt q.num.toNat) (isqrt q.den))
  else none

/-- Errors of the embedded code.  `zeroLengthVector` is
`ValueError("Zero-length vector.")` raised by `unit_vector`;
`noSuitableFace` is the `RuntimeError` of `best_face_for_direction`;
`normalEvalFailed` models an exception escaping `face.normalAt`;
`invalidMode`, `invalidDepth`, `invalidDeflection` model the
corresponding `ValueError`s; `outlineGenerationFailed` models a failure
of the external text-outline generator.  `irrationalLength` is an
artifact of exact rational arithmetic (a nonzero vector whose float
length would be irrational); it cannot occur over ℝ and never occurs in
any statement proved in this file. -/
inductive GeomError where
  | zeroLengthVector
  | noSuitableFace
  | normalEvalFailed
  | invalidMode
  | invalidDepth
  | invalidDeflection
  | outlineGenerationFailed
  | irrationalLength
deriving DecidableEq, Repr

/-- Embeds `face_utils.unit_vector` (= `keycap_exporter_core.unit_vector`):
raise on a zero-length vector, otherwise divide by the length. -/
def unit_vector (v : Vec) : Except GeomError Vec :=
  match ratSqrt (normSq v) with
  | some l => if l = 0 then .error .zeroLengthVector else .ok (smul (1 / l) v)
  | none => .error .irrationalLength

/-- A face, abstracted to the two queries the code performs:
`normalAtMid` is `face.normalAt(u_mid, v_mid)` at the midpoint of
`face.ParameterRange` (`none` models the evaluation raising an
exception), and `centroid` is `face.CenterOfMass`. -/
structure Face where
  normalAtMid : Option Vec
  centroid : Vec
deriving DecidableEq, Repr

/-- The `1e-6` tie-break tolerance of the face selector. -/
def epsilon : ℚ := 1 / 1000000

/-- The `-1e100` initial value of `best_support`. -/
def supportSentinel : ℚ := -(10 ^ 100 : ℚ)

/-- The `for face in solid_shape.Faces` loop of
`face_utils.best_face_for_direction` (lines 23-44), with the running
state (`best_face`, `best_score`, `best_support`) made explicit.
A `none` normal models `face.normalAt` raising: the surrounding
`try/except` skips the face.  A zero-length normal is *not* protected
by that `try` (it wraps only the `ParameterRange` / `normalAt` calls):
`unit_vector` raises and the error propagates — the `.error` branch. -/
def selectLoop (direction : Vec) :
    List Face → Option Face → ℚ → ℚ → Except GeomError (Option Face)
  | [], best, _, _ => .ok best
  | face :: rest, best, bestScore, bestSupport =>
    match face.normalAtMid with
    | none => selectLoop direction rest best bestScore bestSupport
    | some nv =>
      match unit_vector nv with
      | .error e => .error e
      | .ok normal_vector =>
        if dot normal_vector direction < bestScore then
          selectLoop direction rest best bestScore bestSupport
        else if dot normal_vector direction > bestScore + epsilon ∨
            (|dot normal_vector direction - bestScore| ≤ epsilon ∧
              dot face.centroid direction > bestSupport) then
          selectLoop direction rest (some face)
            (dot normal_vector direction) (dot face.centroid direction)
        else
          selectLoop direction rest best bestScore bestSupport

/-- Embeds `face_utils.best_face_for_direction` (lines 12-48): normalise
the requested direction, scan the faces, and either return the best
face or raise `RuntimeError` (`noSuitableFace`) when no candidate was
ever accepted. -/
def best_face_for_direction (solid_faces : List Face) (direction_world : Vec) :
    Except GeomError Face :=
  match unit_vector direction_world with
  | .error e => .error e
  | .ok direction =>
    match selectLoop direction solid_faces none (-1) supportSentinel with
    | .error e => .error e
    | .ok none => .error .noSuitableFace
    | .ok (some f) => .ok f

/-- The provisional up reference of `face_utils.make_face_plane_placement`
(lines 67-69): world +Z, unless the normal is near-parallel to +Z
(`|dot| > 0.95`), in which case world +Y. -/
def upRef (normal_vector : Vec) : Vec :=
  if |dot normal_vector ⟨0, 0, 1⟩| > 19 / 20 then ⟨0, 1, 0⟩ else ⟨0, 0, 1⟩

/-- A local coordinate frame: origin plus the three rotation columns,
modelling `App.Placement(center, App.Rotation(x_axis, y_axis, normal))`. -/
structure Frame where
  origin : Vec
  xAxis : Vec
  yAxis : Vec
  zAxis : Vec
deriving DecidableEq, Repr

/-- Embeds `face_utils.make_face_plane_placement` (lines 51-76): origin
at the face centroid, Z = unit normal at the parametric midpoint,
X = normalised `up × normal`, Y = normalised `normal × X`. -/
def make_face_plane_placement (face : Face) : Except GeomError Frame :=
  match face.normalAtMid with
  | none => .error .normalEvalFailed
  | some nv =>
    match unit_vector nv with
    | .error e => .error e
    | .ok normal_vector =>
      match unit_vector (cross (upRef normal_vector) normal_vector) with
      | .error e => .error e
      | .ok x_axis =>
        match unit_vector (cross normal_vector x_axis) with
        | .error e => .error e
        | .ok y_axis => .ok ⟨face.centroid, x_axis, y_axis, normal_vector⟩

/-- Embeds `keycap_exporter_core.FACE_DIRECTIONS` (lines 18-25). -/
def FACE_DIRECTIONS : List (String × Vec) :=
  [("Top (+Z)", ⟨0, 0, 1⟩),
   ("Bottom (-Z)", ⟨0, 0, -1⟩),
   ("Front (+Y)", ⟨0, 1, 0⟩),
   ("Back (-Y)", ⟨0, -1, 0⟩),
   ("Right (+X)", ⟨1, 0, 0⟩),
   ("Left (-X)", ⟨-1, 0, 0⟩)]

/-- Embeds `keycap_exporter_core.ENGRAVING_DIRECTIONS` (lines 26-33). -/
def ENGRAVING_DIRECTIONS : List (String × Vec) :=
  [("Top (+Z)", ⟨0, 0, -1⟩),
   ("Bottom (-Z)", ⟨0, 0, 1⟩),
   ("Front (+Y)", ⟨0, -1, 0⟩),
   ("Back (-Y)", ⟨0, 1, 0⟩),
   ("Right (+X)", ⟨-1, 0, 0⟩),
   ("Left (-X)", ⟨1, 0, 0⟩)]

/-- A rotation given by its three column vectors (the images of the
local X/Y/Z axes), modelling `App.Rotation(x, y, z)`. -/
structure Rot where
  colX : Vec
  colY : Vec
  colZ : Vec
deriving DecidableEq, Repr

/-- Apply a rotation to a point: linear combination of the columns. -/
def rotApply (r : Rot) (p : Vec) : Vec :=
  vadd (smul p.x r.colX) (vadd (smul p.y r.colY) (smul p.z r.colZ))

/-- A placement: rotation followed by translation, modelling
`App.Placement(position, rotation)`. -/
structure Placement where
  pos : Vec
  rot : Rot
deriving DecidableEq, Repr

/-- Embeds the fixed per-direction frames
`keycap_exporter_core.FACE_ROTATION` (lines 34-77). -/
def FACE_ROTATION : List (String × Rot) :=
  [("Top (+Z)", ⟨⟨1, 0, 0⟩, ⟨0, 1, 0⟩, ⟨0, 0, 1⟩⟩),
   ("Bottom (-Z)", ⟨⟨1, 0, 0⟩, ⟨0, -1, 0⟩, ⟨0, 0, -1⟩⟩),
   ("Front (+Y)", ⟨⟨-1, 0, 0⟩, ⟨0, 0, 1⟩, ⟨0, 1, 0⟩⟩),
   ("Back (-Y)", ⟨⟨1, 0, 0⟩, ⟨0, 0, 1⟩, ⟨0, -1, 0⟩⟩),
   ("Right (+X)", ⟨⟨0, 1, 0⟩, ⟨0, 0, 1⟩, ⟨1, 0, 0⟩⟩),
   ("Left (-X)", ⟨⟨0, -1, 0⟩, ⟨0, 0, 1⟩, ⟨-1, 0, 0⟩⟩)]

/-- A shape (or solid) abstracted to a finite cloud of points.  Every
geometric operation the claims are about acts pointwise on it. -/
abbrev Shape := List Vec

/-- A solid, same point-cloud abstraction. -/
abbrev Solid := List Vec

/-- Embeds `Shape.translate(vector)`: move every point. -/
def translate (v : Vec) (s : Shape) : Shape := s.map (fun p => vadd p v)

/-- Apply a placement to a shape, modelling
`legend_shape.Placement = face_placement.multiply(legend_shape.Placement)`
for a shape whose own placement was the identity. -/
def placeApply (pl : Placement) (s : Shape) : Shape :=
  s.map (fun p => vadd (rotApply pl.rot p) pl.pos)

/-- Minimum of a list of rationals (0 on the empty list; all uses are
guarded by nonemptiness). -/
def listMin : List ℚ → ℚ
  | [] => 0
  | q :: qs => qs.foldl min q

/-- Maximum of a list of rationals (0 on the empty list). -/
def listMax : List ℚ → ℚ
  | [] => 0
  | q :: qs => qs.foldl max q

/-- X coordinates of a shape. -/
def xCoords (s : Shape) : List ℚ := s.map Vec.x

/-- Y coordinates of a shape. -/
def yCoords (s : Shape) : List ℚ := s.map Vec.y

/-- Midpoint of the bounding box in X:
`(bounding_box.XMin + bounding_box.XMax) * 0.5`. -/
def bboxCenterX (s : Shape) : ℚ := (listMin (xCoords s) + listMax (xCoords s)) / 2

/-- Midpoint of the bounding box in Y. -/
def bboxCenterY (s : Shape) : ℚ := (listMin (yCoords s) + listMax (yCoords s)) / 2

/-- The recentering translation shared by both pipelines
(`core.py` lines 27-31, `keycap_exporter_core.py` lines 284-288):
translate by the negative of the bounding-box midpoint in X and Y. -/
def recenter_xy (s : Shape) : Shape :=
  translate ⟨-(bboxCenterX s), -(bboxCenterY s), 0⟩ s

/-- The `overlap = 0.05` constant of `core.py` line 34. -/
def overlap : ℚ := 1 / 20

/-- The build configuration of the `batch_keycaps_export_stl_ui`
pipeline (`config.ExportConfig`), restricted to the fields the build
step reads. -/
structure ExportConfigUI where
  mode : String
  size_mm : ℚ
  depth_mm : ℚ
  offset_x_mm : ℚ
  offset_y_mm : ℚ
  linear_deflection : ℚ
deriving DecidableEq, Repr

/-- The local (pre-placement) legend transformation chain of `core.py`
lines 27-35: recenter, apply the configured offset, then translate by
`-overlap` in local Z.  Note the `-overlap` translation is applied
unconditionally — `cfg.mode` is not consulted here. -/
def legend_local_ui (cfg : ExportConfigUI) (outline : Shape) : Shape :=
  translate ⟨0, 0, -overlap⟩
    (translate ⟨cfg.offset_x_mm, cfg.offset_y_mm, 0⟩ (recenter_xy outline))

/-- The local (pre-placement) legend transformation chain of
`keycap_exporter_core.legend_solid_for_label` (lines 283-289): recenter
then apply the offset.  No overlap translation exists in this
pipeline. -/
def legend_local_core (offset_x offset_y : ℚ) (outline : Shape) : Shape :=
  translate ⟨offset_x, offset_y, 0⟩ (recenter_xy outline)

/-- Vertex cloud of an extrusion: the base points plus their translates
along the extrusion vector.  The fill-in of the prism is delegated to
the external geometry kernel and irrelevant to the claims. -/
def extrudePts (s : Shape) (v : Vec) : Shape := s ++ translate v s

/-- Embeds `geometry_utils.extrude_to_solid` (lines 20-33): reject a
non-positive height (`ValueError`), else extrude along local +Z by the
height.  The wire/compound-to-face conversions are kernel-side shape
bookkeeping not visible in the point abstraction. -/
def extrude_to_solid_ui (s : Shape) (height_mm : ℚ) : Except GeomError Shape :=
  if height_mm ≤ 0 then .error .invalidDepth
  else .ok (extrudePts s ⟨0, 0, height_mm⟩)

/-- Embeds `keycap_exporter_core.extrude_to_solid` (lines 226-234):
extrude along the given vector.  This variant performs no validation of
the extrusion vector or depth. -/
def extrude_to_solid_core (s : Shape) (extrusion_vector : Vec) : Shape :=
  extrudePts s extrusion_vector

/-- Embeds `shape_to_mesh` (both pipelines): reject a non-positive
linear deflection, else tessellate (external; the mesh is modelled by
the point set itself). -/
def shape_to_mesh (s : Shape) (linear_deflection : ℚ) : Except GeomError Shape :=
  if linear_deflection ≤ 0 then .error .invalidDeflection else .ok s

/-- Embeds `Part.Shape.fuse` on the point abstraction: union. -/
def fuse (a b : Solid) : Solid := a ++ b

/-- Embeds `Part.Shape.cut` on the point abstraction: difference. -/
def cut (a b : Solid) : Solid := a.filter (fun p => !(decide (p ∈ b)))

/-- Embeds the mode dispatch shared by `core.py` lines 42-47 and
`keycap_exporter_core.py` lines 342-347: `raise` fuses, `engrave` cuts,
anything else raises `ValueError` without touching the blank. -/
def combine (blank legend : Solid) (mode : String) : Except GeomError Solid :=
  if mode = "raise" then .ok (fuse blank legend)
  else if mode = "engrave" then .ok (cut blank legend)
  else .error .invalidMode

/-- Observable events of a build, used to express what work happened
before a failure. -/
inductive BuildEvent where
  | outlineGenerated (label : String)
deriving DecidableEq, Repr

/-- Embeds the body of `core.build_keycap_with_legend_shape` (`core.py`
lines 25-49) after template/face resolution, together with the list of
outline-generation events it performs: generate the text outline
(`make_shapestring_shape`, line 25 — this happens first), run the local
translation chain, place, extrude (where the depth check lives), and
combine with the blank according to the mode. -/
def build_keycap_ui (cfg : ExportConfigUI) (outlineOf : String → ℚ → Shape)
    (face_placement : Placement) (blank : Solid) (label : String) :
    List BuildEvent × Except GeomError Solid :=
  match extrude_to_solid_ui
      (placeApply face_placement (legend_local_ui cfg (outlineOf label cfg.size_mm)))
      cfg.depth_mm with
  | .error e => ([.outlineGenerated label], .error e)
  | .ok legend_solid => ([.outlineGenerated label], combine blank legend_solid cfg.mode)

/-- Python truthiness of an `Optional[str]`: `None` and `""` are falsy. -/
def truthy : Option String → Bool
  | none => false
  | some s => !(s == "")

/-- The build configuration of the `keycap_exporter_core` pipeline
(`ExportConfiguration`), restricted to the fields
`build_keycap_with_legend_shape` reads. -/
structure ExportConfigurationCore where
  mode : String
  primary_font_size : ℚ
  primary_offset_x : ℚ
  primary_offset_y : ℚ
  shift_font_size : ℚ
  shift_offset_x : ℚ
  shift_offset_y : ℚ
  altcr_font_size : ℚ
  altcr_offset_x : ℚ
  altcr_offset_y : ℚ
  fn_font_size : ℚ
  fn_offset_x : ℚ
  fn_offset_y : ℚ
deriving DecidableEq, Repr

/-- Embeds the inner `legend_solid_for_label` of
`keycap_exporter_core.build_keycap_with_legend_shape` (lines 277-291):
outline, recenter, offset, place into the face frame, extrude along the
extrusion vector. -/
def legend_solid_core (outlineOf : String → ℚ → Shape) (face_placement : Placement)
    (extrusion_vector : Vec) (legend_label : String) (font_size ox oy : ℚ) : Shape :=
  extrude_to_solid_core
    (placeApply face_placement (legend_local_core ox oy (outlineOf legend_label font_size)))
    extrusion_vector

/-- One optional secondary legend: `if shift_label: legend_solids.append(...)`. -/
def optLegendPart (outlineOf : String → ℚ → Shape) (face_placement : Placement)
    (extrusion_vector : Vec) (lbl : Option String) (font_size ox oy : ℚ) : List Shape :=
  match lbl with
  | none => []
  | some s =>
    if s == "" then []
    else [legend_solid_core outlineOf face_placement extrusion_vector s font_size ox oy]

/-- Embeds `keycap_exporter_core.build_keycap_with_legend_shape`
(lines 266-347): the primary offset is the configured one iff some
secondary label is truthy (lines 294-299), the legend solids are fused
left to right (lines 338-340), and the result is combined with the
blank according to the mode (lines 342-347). -/
def build_keycap_core (cfg : ExportConfigurationCore) (outlineOf : String → ℚ → Shape)
    (face_placement : Placement) (extrusion_vector : Vec) (blank : Solid)
    (label : String) (shift_label altcr_label fn_label : Option String) :
    Except GeomError Solid :=
  combine blank
    ((optLegendPart outlineOf face_placement extrusion_vector shift_label
        cfg.shift_font_size cfg.shift_offset_x cfg.shift_offset_y ++
      optLegendPart outlineOf face_placement extrusion_vector altcr_label
        cfg.altcr_font_size cfg.altcr_offset_x cfg.altcr_offset_y ++
      optLegendPart outlineOf face_placement extrusion_vector fn_label
        cfg.fn_font_size cfg.fn_offset_x cfg.fn_offset_y).foldl fuse
      (legend_solid_core outlineOf face_placement extrusion_vector label
        cfg.primary_font_size
        (if truthy shift_label || truthy altcr_label || truthy fn_label then
          cfg.primary_offset_x
        else 0)
        (if truthy shift_label || truthy altcr_label || truthy fn_label then
          cfg.primary_offset_y
        else 0)))
    cfg.mode

/-- Modelled from the claim's words, for comparison with
`build_keycap_core`: the same build, but the primary in-plane offset to
apply is passed explicitly instead of being derived from the secondary
labels. -/
def build_keycap_core_with_primary_offset (pox poy : ℚ)
    (cfg : ExportConfigurationCore) (outlineOf : String → ℚ → Shape)
    (face_placement : Placement) (extrusion_vector : Vec) (blank : Solid)
    (label : String) (shift_label altcr_label fn_label : Option String) :
    Except GeomError Solid :=
  combine blank
    ((optLegendPart outlineOf face_placement extrusion_vector shift_label
        cfg.shift_font_size cfg.shift_offset_x cfg.shift_offset_y ++
      optLegendPart outlineOf face_placement extrusion_vector altcr_label
        cfg.altcr_font_size cfg.altcr_offset_x cfg.altcr_offset_y ++
      optLegendPart outlineOf face_placement extrusion_vector fn_label
        cfg.fn_font_size cfg.fn_offset_x cfg.fn_offset_y).foldl fuse
      (legend_solid_core outlineOf face_placement extrusion_vector label
        cfg.primary_font_size pox poy))
    cfg.mode

/-- The per-row export loop of
`exporter.generate_keycaps_to_stl_from_selected_template` (lines 39-46;
identically `keycap_exporter_run.py` lines 82-94): for each row, run
build + mesh (`process`), then write the output.  The loop body has no
`try/except`, so a row failure propagates and aborts the loop; the
outputs written before the failure persist. -/
def exportLoop {α β : Type} (process : α → Except GeomError β) :
    List α → List β → List β × Option GeomError
  | [], written => (written, none)
  | row :: rest, written =>
    match process row with
    | .error e => (written, some e)
    | .ok out => exportLoop process rest (written ++ [out])

/-- The batch export entry point: run the per-row loop over all rows
with no output written yet. -/
def generate_keycaps_batch {α β : Type} (process : α → Except GeomError β)
    (rows : List α) : List β × Option GeomError :=
  exportLoop process rows []

/-! Helper lemmas: exact square root and normalisation. -/

theorem ratSqrt_sound {q l : ℚ} (h : ratSqrt q = some l) : 0 ≤ l ∧ l * l = q := by
  unfold ratSqrt at h
  split at h
  · rename_i hcond
    obtain ⟨hnum, hn, hd⟩ := hcond
    have hinj : mkRat (isqrt q.num.toNat) (isqrt q.den) = l := Option.some.inj h
    have hl : l = (isqrt q.num.toNat : ℚ) / (isqrt q.den : ℚ) := by
      rw [← hinj, Rat.mkRat_eq_div]
      push_cast
      ring
    have h1 : ((isqrt q.num.toNat : ℕ) : ℚ) * ((isqrt q.num.toNat : ℕ) : ℚ) =
        ((q.num.toNat : ℕ) : ℚ) := by exact_mod_cast hn
    have h2 : ((isqrt q.den : ℕ) : ℚ) * ((isqrt q.den : ℕ) : ℚ) = ((q.den : ℕ) : ℚ) := by
      exact_mod_cast hd
    have h3 : ((q.num.toNat : ℕ) : ℚ) = ((q.num : ℤ) : ℚ) := by
      exact_mod_cast Int.toNat_of_nonneg hnum
    constructor
    · rw [hl]
      positivity
    · rw [hl, div_mul_div_comm, h1, h2, h3, Rat.num_div_den]
  · cases h

theorem normSq_nonneg (v : Vec) : 0 ≤ normSq v := by
  unfold normSq dot
  nlinarith [sq_nonneg v.x, sq_nonneg v.y, sq_nonneg v.z]

theorem normSq_smul (c : ℚ) (v : Vec) : normSq (smul c v) = c ^ 2 * normSq v := by
  unfold normSq dot smul
  ring

/-- Destructor for a successful normalisation. -/
theorem unit_vector_ok_elim {v u : Vec} (h : unit_vector v = .ok u) :
    ∃ l : ℚ, 0 ≤ l ∧ l ≠ 0 ∧ l * l = normSq v ∧ u = smul (1 / l) v := by
  unfold unit_vector at h
  rcases hsq : ratSqrt (normSq v) with _ | l
  · rw [hsq] at h
    cases h
  · rw [hsq] at h
    obtain ⟨hl0, hll⟩ := ratSqrt_sound hsq
    by_cases hz : l = 0
    · rw [hz] at h
      simp at h
    · refine ⟨l, hl0, hz, hll, ?_⟩
      simp [hz] at h
      rw [one_div]
      exact h.symm

/-- A successfully normalised vector has unit squared length. -/
theorem unit_vector_normSq {v u : Vec} (h : unit_vector v = .ok u) : normSq u = 1 := by
  obtain ⟨l, _, hz, hll, hu⟩ := unit_vector_ok_elim h
  rw [hu, normSq_smul, ← hll]
  field_simp
  ring

/-- `unit_vector` raises the zero-length error exactly on vectors of
zero squared length. -/
theorem unit_vector_zero_iff (v : Vec) :
    unit_vector v = .error .zeroLengthVector ↔ normSq v = 0 := by
  constructor
  · intro h
    unfold unit_vector at h
    rcases hsq : ratSqrt (normSq v) with _ | l
    · rw [hsq] at h
      simp at h
    · rw [hsq] at h
      obtain ⟨hl0, hll⟩ := ratSqrt_sound hsq
      by_cases hz : l = 0
      · rw [← hll, hz]
        ring
      · simp [hz] at h
  · intro h
    unfold unit_vector
    rw [h]
    have h0 : ratSqrt 0 = some 0 := by with_unfolding_all rfl
    rw [h0]
    simp

/-! Helper lemmas: vector algebra. -/

theorem dot_comm (a b : Vec) : dot a b = dot b a := by
  unfold dot
  ring

theorem dot_smul_left (c : ℚ) (a b : Vec) : dot (smul c a) b = c * dot a b := by
  unfold dot smul
  ring

theorem dot_cross_left (a b : Vec) : dot (cross a b) a = 0 := by
  unfold dot cross
  ring

theorem dot_cross_right (a b : Vec) : dot (cross a b) b = 0 := by
  unfold dot cross
  ring

theorem normSq_cross (a b : Vec) :
    normSq (cross a b) = normSq a * normSq b - (dot a b) ^ 2 := by
  unfold normSq dot cross
  ring

theorem cross_smul_right (c : ℚ) (a b : Vec) :
    cross a (smul c b) = smul c (cross a b) := by
  unfold cross smul
  ext <;> dsimp <;> ring

/-- Triple-product collapse used by the frame construction: for a unit
vector `a` orthogonal to `b`, crossing `a` with `b × a` gives back `b`. -/
theorem cross_cross_of_unit (a b : Vec) (ha : normSq a = 1) (hab : dot a b = 0) :
    cross a (cross b a) = b := by
  unfold normSq dot at ha
  unfold dot at hab
  unfold cross
  ext
  · dsimp
    linear_combination b.x * ha - a.x * hab
  · dsimp
    linear_combination b.y * ha - a.y * hab
  · dsimp
    linear_combination b.z * ha - a.z * hab

/-- Cauchy-Schwarz lower bound: the dot product of two unit vectors is
at least -1. -/
theorem dot_ge_neg_one (a b : Vec) (ha : normSq a = 1) (hb : normSq b = 1) :
    -1 ≤ dot a b := by
  unfold normSq dot at ha hb
  unfold dot
  nlinarith [sq_nonneg (a.x + b.x), sq_nonneg (a.y + b.y), sq_nonneg (a.z + b.z)]

theorem epsilon_pos : 0 < epsilon := by norm_num [epsilon]

/-! Helper lemmas: behaviour of the face-selection loop. -/

/-- If every face's normal evaluation throws, the loop leaves the
running best untouched. -/
theorem selectLoop_all_skipped (d : Vec) :
    ∀ (faces : List Face) (best : Option Face) (bs bsup : ℚ),
    (∀ f ∈ faces, f.normalAtMid = none) →
    selectLoop d faces best bs bsup = .ok best := by
  intro faces
  induction faces with
  | nil => intro best bs bsup _; rfl
  | cons f rest ih =>
    intro best bs bsup h
    have hf : f.normalAtMid = none := h f (List.mem_cons_self f rest)
    simp only [selectLoop, hf]
    exact ih best bs bsup (fun g hg => h g (List.mem_cons_of_mem f hg))

/-- Once a face is the running best, a loop over faces whose normals
all evaluate successfully ends with some accepted face: either the
incumbent or a face of the remaining list. -/
theorem selectLoop_from_some (d : Vec) :
    ∀ (faces : List Face) (c : Face) (bs bsup : ℚ),
    (∀ f ∈ faces, ∀ nv, f.normalAtMid = some nv → ∃ u, unit_vector nv = .ok u) →
    ∃ g, selectLoop d faces (some c) bs bsup = .ok (some g) ∧ (g = c ∨ g ∈ faces) := by
  intro faces
  induction faces with
  | nil => intro c bs bsup _; exact ⟨c, rfl, Or.inl rfl⟩
  | cons f rest ih =>
    intro c bs bsup h
    have hrest : ∀ g ∈ rest, ∀ nv, g.normalAtMid = some nv → ∃ u, unit_vector nv = .ok u :=
      fun g hg => h g (List.mem_cons_of_mem f hg)
    rcases hnm : f.normalAtMid with _ | nv
    · simp only [selectLoop, hnm]
      obtain ⟨g, hg, hor⟩ := ih c bs bsup hrest
      exact ⟨g, hg, hor.imp id (List.mem_cons_of_mem f)⟩
    · obtain ⟨u, hu⟩ := h f (List.mem_cons_self f rest) nv hnm
      simp only [selectLoop, hnm, hu]
      by_cases hskip : dot u d < bs
      · rw [if_pos hskip]
        obtain ⟨g, hg, hor⟩ := ih c bs bsup hrest
        exact ⟨g, hg, hor.imp id (List.mem_cons_of_mem f)⟩
      · rw [if_neg hskip]
        by_cases hacc : dot u d > bs + epsilon ∨
            (|dot u d - bs| ≤ epsilon ∧ dot f.centroid d > bsup)
        · rw [if_pos hacc]
          obtain ⟨g, hg, hor⟩ := ih f (dot u d) (dot f.centroid d) hrest
          refine ⟨g, hg, Or.inr ?_⟩
          rcases hor with h1 | h1
          · rw [h1]; exact List.mem_cons_self f rest
          · exact List.mem_cons_of_mem f h1
        · rw [if_neg hacc]
          obtain ⟨g, hg, hor⟩ := ih c bs bsup hrest
          exact ⟨g, hg, hor.imp id (List.mem_cons_of_mem f)⟩

/-- From the initial state, if the direction is unit, every normal that
evaluates does so successfully with a support above the sentinel, and
at least one face evaluates, then the loop accepts some face of the
list. -/
theorem selectLoop_from_start (d : Vec) (hd1 : normSq d = 1) :
    ∀ (faces : List Face),
    (∀ f ∈ faces, ∀ nv, f.normalAtMid = some nv → ∃ u, unit_vector nv = .ok u) →
    (∀ f ∈ faces, dot f.centroid d > supportSentinel) →
    (∃ f ∈ faces, f.normalAtMid ≠ none) →
    ∃ g ∈ faces, selectLoop d faces none (-1) supportSentinel = .ok (some g) := by
  intro faces
  induction faces with
  | nil =>
    intro _ _ hex
    obtain ⟨f, hf, _⟩ := hex
    cases hf
  | cons f rest ih =>
    intro h hsup hex
    have hrest : ∀ g ∈ rest, ∀ nv, g.normalAtMid = some nv → ∃ u, unit_vector nv = .ok u :=
      fun g hg => h g (List.mem_cons_of_mem f hg)
    have hsuprest : ∀ g ∈ rest, dot g.centroid d > supportSentinel :=
      fun g hg => hsup g (List.mem_cons_of_mem f hg)
    rcases hnm : f.normalAtMid with _ | nv
    · have hexrest : ∃ g ∈ rest, g.normalAtMid ≠ none := by
        obtain ⟨g, hg, hgn⟩ := hex
        rcases List.mem_cons.mp hg with h1 | h1
        · rw [h1] at hgn; exact absurd hnm hgn
        · exact ⟨g, h1, hgn⟩
      simp only [selectLoop, hnm]
      obtain ⟨g, hg, hloop⟩ := ih hrest hsuprest hexrest
      exact ⟨g, List.mem_cons_of_mem f hg, hloop⟩
    · obtain ⟨u, hu⟩ := h f (List.mem_cons_self f rest) nv hnm
      have hu1 : normSq u = 1 := unit_vector_normSq hu
      have hge : -1 ≤ dot u d := dot_ge_neg_one u d hu1 hd1
      simp only [selectLoop, hnm, hu]
      rw [if_neg (not_lt.mpr hge)]
      have hacc : dot u d > -1 + epsilon ∨
          (|dot u d - -1| ≤ epsilon ∧ dot f.centroid d > supportSentinel) := by
        by_cases hgt : dot u d > -1 + epsilon
        · exact Or.inl hgt
        · refine Or.inr ⟨abs_le.mpr ⟨by linarith, by linarith [not_lt.mp hgt]⟩,
            hsup f (List.mem_cons_self f rest)⟩
      rw [if_pos hacc]
      obtain ⟨g, hg, hor⟩ := selectLoop_from_some d rest f (dot u d) (dot f.centroid d) hrest
      refine ⟨g, ?_, hg⟩
      rcases hor with h1 | h1
      · rw [h1]; exact List.mem_cons_self f rest
      · exact List.mem_cons_of_mem f h1

/-- Tie-break phase: once a face carrying the distinguished normal `n`
is the running best, the loop over faces that either carry `n` (hence
tie exactly in score) or score more than ε worse ends on the strict
support maximiser among the `n`-faces. -/
theorem selectLoop_nface (d n un : Vec) (hn : unit_vector n = .ok un) :
    ∀ (rest : List Face) (c fb : Face),
    c.normalAtMid = some n →
    (∀ f ∈ rest, ∃ nv u, f.normalAtMid = some nv ∧ unit_vector nv = .ok u ∧
      (nv = n ∨ dot u d < dot un d - epsilon) ∧ dot f.centroid d > supportSentinel) →
    (fb = c ∨ (fb ∈ rest ∧ fb.normalAtMid = some n)) →
    (c ≠ fb → dot c.centroid d < dot fb.centroid d) →
    (∀ g ∈ rest, g.normalAtMid = some n → g ≠ fb → dot g.centroid d < dot fb.centroid d) →
    selectLoop d rest (some c) (dot un d) (dot c.centroid d) = .ok (some fb) := by
  intro rest
  induction rest with
  | nil =>
    intro c fb _ _ hfb hcfb _
    rcases hfb with h1 | h1
    · rw [h1]; rfl
    · exact absurd h1.1 (List.not_mem_nil fb)
  | cons h rest ih =>
    intro c fb hcn hall hfb hcfb hmax
    obtain ⟨nv, u, hnm, hu, hclass, hsup⟩ := hall h (List.mem_cons_self h rest)
    have hallrest : ∀ f ∈ rest, ∃ nv u, f.normalAtMid = some nv ∧ unit_vector nv = .ok u ∧
        (nv = n ∨ dot u d < dot un d - epsilon) ∧ dot f.centroid d > supportSentinel :=
      fun f hf => hall f (List.mem_cons_of_mem h hf)
    have hmaxrest : ∀ g ∈ rest, g.normalAtMid = some n → g ≠ fb →
        dot g.centroid d < dot fb.centroid d :=
      fun g hg => hmax g (List.mem_cons_of_mem h hg)
    simp only [selectLoop, hnm, hu]
    rcases hclass with hnveq | hworse
    · -- h carries the distinguished normal: exact score tie.
      have hnmn : h.normalAtMid = some n := by rw [hnm, hnveq]
      have hun2 : unit_vector n = .ok u := by rw [← hnveq]; exact hu
      have huun : u = un := (Except.ok.inj (hn.symm.trans hun2)).symm
      rw [huun]
      rw [if_neg (lt_irrefl (dot un d))]
      by_cases hgt : dot h.centroid d > dot c.centroid d
      · have hacc : dot un d > dot un d + epsilon ∨
            (|dot un d - dot un d| ≤ epsilon ∧ dot h.centroid d > dot c.centroid d) :=
          Or.inr ⟨by simp [epsilon_pos.le], hgt⟩
        rw [if_pos hacc]
        have hne : h ≠ fb → dot h.centroid d < dot fb.centroid d :=
          hmax h (List.mem_cons_self h rest) hnmn
        have hfb2 : fb = h ∨ (fb ∈ rest ∧ fb.normalAtMid = some n) := by
          rcases hfb with h1 | h1
          · exfalso
            by_cases hhf : h = fb
            · rw [hhf, h1] at hgt
              exact lt_irrefl _ hgt
            · have hlt := hne hhf
              rw [h1] at hlt
              linarith
          · rcases List.mem_cons.mp h1.1 with h2 | h2
            · exact Or.inl h2
            · exact Or.inr ⟨h2, h1.2⟩
        exact ih h fb hnmn hallrest hfb2 hne hmaxrest
      · have hacc : ¬(dot un d > dot un d + epsilon ∨
            (|dot un d - dot un d| ≤ epsilon ∧ dot h.centroid d > dot c.centroid d)) := by
          push_neg
          exact ⟨by linarith [epsilon_pos], fun _ => not_lt.mp hgt⟩
        rw [if_neg hacc]
        have hfb2 : fb = c ∨ (fb ∈ rest ∧ fb.normalAtMid = some n) := by
          rcases hfb with h1 | h1
          · exact Or.inl h1
          · rcases List.mem_cons.mp h1.1 with h2 | h2
            · -- fb = h would force a strictly larger support than c, contradiction
              by_cases hcfb2 : c = fb
              · exact Or.inl hcfb2.symm
              · exfalso
                have := hcfb hcfb2
                rw [h2] at this
                exact hgt (by linarith)
            · exact Or.inr ⟨h2, h1.2⟩
        exact ih c fb hcn hallrest hfb2 hcfb hmaxrest
    · -- h scores strictly worse by more than ε: cheap-rejected.
      rw [if_pos (by linarith [epsilon_pos] : dot u d < dot un d)]
      have hfb2 : fb = c ∨ (fb ∈ rest ∧ fb.normalAtMid = some n) := by
        rcases hfb with h1 | h1
        · exact Or.inl h1
        · rcases List.mem_cons.mp h1.1 with h2 | h2
          · exfalso
            rw [h2] at h1
            have hnn : nv = n := by
              have := h1.2
              rw [hnm] at this
              exact Option.some.inj this
            subst hnn
            have huun : u = un := by
              have := hn.symm.trans hu
              exact (Except.ok.inj this).symm
            rw [huun] at hworse
            linarith [epsilon_pos]
          · exact Or.inr ⟨h2, h1.2⟩
      exact ih c fb hcn hallrest hfb2 hcfb hmaxrest

/-- Search phase: before any face carrying the distinguished normal `n`
has been met, the loop state is either the initial one or some face
scoring more than ε below the `n`-score; reaching an `n`-face always
accepts it, after which the tie-break phase takes over. -/
theorem selectLoop_prephase (d n un : Vec) (hd1 : normSq d = 1)
    (hn : unit_vector n = .ok un) :
    ∀ (rest : List Face) (fb : Face) (best : Option Face) (bs bsup : ℚ),
    (∀ f ∈ rest, ∃ nv u, f.normalAtMid = some nv ∧ unit_vector nv = .ok u ∧
      (nv = n ∨ dot u d < dot un d - epsilon) ∧ dot f.centroid d > supportSentinel) →
    fb ∈ rest → fb.normalAtMid = some n →
    (∀ g ∈ rest, g.normalAtMid = some n → g ≠ fb → dot g.centroid d < dot fb.centroid d) →
    ((best = none ∧ bs = -1 ∧ bsup = supportSentinel) ∨ bs < dot un d - epsilon) →
    selectLoop d rest best bs bsup = .ok (some fb) := by
  intro rest
  induction rest with
  | nil =>
    intro fb best bs bsup _ hmem _ _ _
    exact absurd hmem (List.not_mem_nil fb)
  | cons h rest ih =>
    intro fb best bs bsup hall hmem hfbn hmax hinv
    obtain ⟨nv, u, hnm, hu, hclass, hsup⟩ := hall h (List.mem_cons_self h rest)
    have hallrest : ∀ f ∈ rest, ∃ nv u, f.normalAtMid = some nv ∧ unit_vector nv = .ok u ∧
        (nv = n ∨ dot u d < dot un d - epsilon) ∧ dot f.centroid d > supportSentinel :=
      fun f hf => hall f (List.mem_cons_of_mem h hf)
    have hmaxrest : ∀ g ∈ rest, g.normalAtMid = some n → g ≠ fb →
        dot g.centroid d < dot fb.centroid d :=
      fun g hg => hmax g (List.mem_cons_of_mem h hg)
    simp only [selectLoop, hnm, hu]
    rcases hclass with hnveq | hworse
    · -- h carries the distinguished normal: it is accepted here.
      have hnmn : h.normalAtMid = some n := by rw [hnm, hnveq]
      have hun2 : unit_vector n = .ok u := by rw [← hnveq]; exact hu
      have huun : u = un := (Except.ok.inj (hn.symm.trans hun2)).symm
      rw [huun]
      have hu1 : normSq un = 1 := unit_vector_normSq hn
      have hge : -1 ≤ dot un d := dot_ge_neg_one un d hu1 hd1
      have hnoskip : ¬(dot un d < bs) := by
        rcases hinv with ⟨_, hbs, _⟩ | hbs
        · rw [hbs]; exact not_lt.mpr hge
        · exact not_lt.mpr (le_of_lt (by linarith [epsilon_pos]))
      rw [if_neg hnoskip]
      have hacc : dot un d > bs + epsilon ∨
          (|dot un d - bs| ≤ epsilon ∧ dot h.centroid d > bsup) := by
        rcases hinv with ⟨_, hbs, hbsup⟩ | hbs
        · rw [hbs, hbsup]
          by_cases hgt : dot un d > -1 + epsilon
          · exact Or.inl hgt
          · exact Or.inr ⟨abs_le.mpr ⟨by linarith, by linarith [not_lt.mp hgt]⟩, hsup⟩
        · exact Or.inl (by linarith)
      rw [if_pos hacc]
      have hne : h ≠ fb → dot h.centroid d < dot fb.centroid d :=
        hmax h (List.mem_cons_self h rest) hnmn
      have hfb2 : fb = h ∨ (fb ∈ rest ∧ fb.normalAtMid = some n) := by
        rcases List.mem_cons.mp hmem with h1 | h1
        · exact Or.inl h1
        · exact Or.inr ⟨h1, hfbn⟩
      exact selectLoop_nface d n un hn rest h fb hnmn hallrest hfb2 hne hmaxrest
    · -- h scores more than ε below the n-score: whatever happens, the
      -- invariant is preserved.
      have hfbrest : fb ∈ rest := by
        rcases List.mem_cons.mp hmem with h1 | h1
        · exfalso
          rw [h1] at hfbn
          have hnn : nv = n := by
            rw [hfbn] at hnm
            exact Option.some.inj hnm.symm
          rw [hnn] at hu
          have huun : u = un := (Except.ok.inj (hn.symm.trans hu)).symm
          rw [huun] at hworse
          linarith [epsilon_pos]
        · exact h1
      by_cases hskip : dot u d < bs
      · rw [if_pos hskip]
        exact ih fb best bs bsup hallrest hfbrest hfbn hmaxrest hinv
      · rw [if_neg hskip]
        by_cases hacc : dot u d > bs + epsilon ∨
            (|dot u d - bs| ≤ epsilon ∧ dot h.centroid d > bsup)
        · rw [if_pos hacc]
          exact ih fb (some h) (dot u d) (dot h.centroid d) hallrest hfbrest hfbn hmaxrest
            (Or.inr hworse)
        · rw [if_neg hacc]
          exact ih fb best bs bsup hallrest hfbrest hfbn hmaxrest hinv

/-- Claim C1 (amended): for every enumeration order of the faces, if
every face either carries the distinguished (best-aligned) normal `n`
or scores more than ε below it, supports are above the sentinel, and
`fBest` is the face with normal `n` of strictly greatest support, then
the selector returns `fBest` — the outermost of the equally-aligned
parallel faces, independent of enumeration order.  (As originally
stated the claim is refuted by `best_face_order_dependent` below: for
scores that differ by at most ε without being equal, the ε tie-break is
enumeration-order-dependent.) -/
theorem best_face_outermost (direction_world d n un : Vec)
    (hd : unit_vector direction_world = .ok d)
    (hn : unit_vector n = .ok un)
    (faces : List Face) (fBest : Face)
    (hmem : fBest ∈ faces) (hfn : fBest.normalAtMid = some n)
    (hfaces : ∀ f ∈ faces, ∃ nv u, f.normalAtMid = some nv ∧ unit_vector nv = .ok u ∧
      (nv = n ∨ dot u d < dot un d - epsilon) ∧ dot f.centroid d > supportSentinel)
    (hmax : ∀ g ∈ faces, g.normalAtMid = some n → g ≠ fBest →
      dot g.centroid d < dot fBest.centroid d) :
    best_face_for_direction faces direction_world = .ok fBest := by
  have hd1 : normSq d = 1 := unit_vector_normSq hd
  have hloop := selectLoop_prephase d n un hd1 hn faces fBest none (-1) supportSentinel
    hfaces hmem hfn hmax (Or.inl ⟨rfl, rfl, rfl⟩)
  unfold best_face_for_direction
  simp only [hd, hloop]

set_option maxRecDepth 8000 in
/-- Claim C1 (witness for the amended theorem): two parallel faces with
identical normals, supports 0 and 5 along the direction; the selector
returns the outer face. -/
theorem best_face_outermost_witness :
    best_face_for_direction
        [⟨some ⟨1, 0, 0⟩, ⟨0, 0, 0⟩⟩, ⟨some ⟨1, 0, 0⟩, ⟨5, 0, 0⟩⟩] ⟨1, 0, 0⟩ =
      .ok ⟨some ⟨1, 0, 0⟩, ⟨5, 0, 0⟩⟩ := by
  refine best_face_outermost ⟨1, 0, 0⟩ ⟨1, 0, 0⟩ ⟨1, 0, 0⟩ ⟨1, 0, 0⟩
    (by with_unfolding_all rfl) (by with_unfolding_all rfl) _ _
    (of_decide_eq_true (by with_unfolding_all rfl)) rfl ?_
    (of_decide_eq_true (by with_unfolding_all rfl))
  intro f hf
  rcases List.mem_cons.mp hf with h1 | h1
  · subst h1
    exact ⟨⟨1, 0, 0⟩, ⟨1, 0, 0⟩, rfl, by with_unfolding_all rfl, Or.inl rfl,
      of_decide_eq_true (by with_unfolding_all rfl)⟩
  · rcases List.mem_cons.mp h1 with h2 | h2
    · subst h2
      exact ⟨⟨1, 0, 0⟩, ⟨1, 0, 0⟩, rfl, by with_unfolding_all rfl, Or.inl rfl,
        of_decide_eq_true (by with_unfolding_all rfl)⟩
    · cases h2

/-- Claim C1 (counterexample): with direction +X, face A has unit normal
+X (score 1, support 0) and face B a rational unit normal scoring
1 - 2/4000001 (within ε = 1e-6 of A) with support 100.  Enumerated as
[A, B] the selector returns A although B ties within ε and has strictly
greater support (the claimed tie-break is not applied, because the
cheap reject `score < bestScore` fires first); enumerated as [B, A] it
returns B although A has the strictly greater score.  Hence the result
depends on enumeration order and is neither score-maximising nor
support-tie-broken as claimed. -/
theorem best_face_order_dependent :
    best_face_for_direction
        [⟨some ⟨1, 0, 0⟩, ⟨0, 0, 0⟩⟩,
         ⟨some ⟨3999999 / 4000001, 4000 / 4000001, 0⟩, ⟨100, 0, 0⟩⟩] ⟨1, 0, 0⟩ =
      .ok ⟨some ⟨1, 0, 0⟩, ⟨0, 0, 0⟩⟩ ∧
    best_face_for_direction
        [⟨some ⟨3999999 / 4000001, 4000 / 4000001, 0⟩, ⟨100, 0, 0⟩⟩,
         ⟨some ⟨1, 0, 0⟩, ⟨0, 0, 0⟩⟩] ⟨1, 0, 0⟩ =
      .ok ⟨some ⟨3999999 / 4000001, 4000 / 4000001, 0⟩, ⟨100, 0, 0⟩⟩ ∧
    (⟨some ⟨1, 0, 0⟩, ⟨0, 0, 0⟩⟩ : Face) ≠
      ⟨some ⟨3999999 / 4000001, 4000 / 4000001, 0⟩, ⟨100, 0, 0⟩⟩ ∧
    |dot ⟨3999999 / 4000001, 4000 / 4000001, 0⟩ ⟨1, 0, 0⟩ -
        dot ⟨1, 0, 0⟩ ⟨1, 0, 0⟩| ≤ epsilon ∧
    dot (⟨100, 0, 0⟩ : Vec) ⟨1, 0, 0⟩ > dot (⟨0, 0, 0⟩ : Vec) ⟨1, 0, 0⟩ :=
  ⟨by with_unfolding_all rfl, by with_unfolding_all rfl,
   of_decide_eq_true (by with_unfolding_all rfl),
   of_decide_eq_true (by with_unfolding_all rfl),
   of_decide_eq_true (by with_unfolding_all rfl)⟩

/-- Claim C2 (amended): the selector fails with the zero-length-vector
error for every solid when the direction has zero length; it fails with
`noSuitableFace` when every face's normal evaluation throws (in
particular for zero faces); and when at least one normal evaluates and
all evaluated normals normalise successfully (nonzero, rational length)
with supports above the `-1e100` sentinel, it returns a face of the
solid.  (As originally stated the claim is refuted by
`best_face_zero_normal_fatal`: a face whose normal evaluates to a
zero-length vector is not skipped — the `ValueError` from `unit_vector`
is raised outside the `try/except` and aborts the selection.) -/
theorem best_face_errors :
    (∀ (faces : List Face) (dw : Vec), normSq dw = 0 →
      best_face_for_direction faces dw = .error .zeroLengthVector) ∧
    (∀ (dw d : Vec), unit_vector dw = .ok d →
      ∀ faces : List Face, (∀ f ∈ faces, f.normalAtMid = none) →
      best_face_for_direction faces dw = .error .noSuitableFace) ∧
    (∀ (dw d : Vec), unit_vector dw = .ok d →
      ∀ faces : List Face,
      (∀ f ∈ faces, ∀ nv, f.normalAtMid = some nv → ∃ u, unit_vector nv = .ok u) →
      (∀ f ∈ faces, dot f.centroid d > supportSentinel) →
      (∃ f ∈ faces, f.normalAtMid ≠ none) →
      ∃ g ∈ faces, best_face_for_direction faces dw = .ok g) := by
  refine ⟨?_, ?_, ?_⟩
  · intro faces dw h
    unfold best_face_for_direction
    simp only [(unit_vector_zero_iff dw).mpr h]
  · intro dw d hd faces hall
    unfold best_face_for_direction
    simp only [hd, selectLoop_all_skipped d faces none (-1) supportSentinel hall]
  · intro dw d hd faces hok hsup hex
    have hd1 : normSq d = 1 := unit_vector_normSq hd
    obtain ⟨g, hg, hloop⟩ := selectLoop_from_start d hd1 faces hok hsup hex
    refine ⟨g, hg, ?_⟩
    unfold best_face_for_direction
    simp only [hd, hloop]

set_option maxRecDepth 8000 in
/-- Claim C2 (witness): the three parts of `best_face_errors` applied
at concrete inputs — a zero direction, a solid whose single face throws
on normal evaluation, and a well-behaved single-face solid. -/
theorem best_face_errors_witness :
    best_face_for_direction [⟨some ⟨0, 0, 1⟩, ⟨0, 0, 0⟩⟩] ⟨0, 0, 0⟩ =
      .error .zeroLengthVector ∧
    best_face_for_direction [⟨none, ⟨0, 0, 0⟩⟩] ⟨0, 0, 1⟩ =
      .error .noSuitableFace ∧
    ∃ g ∈ [(⟨some ⟨0, 0, 1⟩, ⟨2, 3, 4⟩⟩ : Face)],
      best_face_for_direction [⟨some ⟨0, 0, 1⟩, ⟨2, 3, 4⟩⟩] ⟨0, 0, 1⟩ = .ok g := by
  refine ⟨best_face_errors.1 _ _ (by with_unfolding_all rfl),
    best_face_errors.2.1 ⟨0, 0, 1⟩ ⟨0, 0, 1⟩ (by with_unfolding_all rfl) _
      (of_decide_eq_true (by with_unfolding_all rfl)),
    best_face_errors.2.2 ⟨0, 0, 1⟩ ⟨0, 0, 1⟩ (by with_unfolding_all rfl) _ ?_
      (of_decide_eq_true (by with_unfolding_all rfl))
      (of_decide_eq_true (by with_unfolding_all rfl))⟩
  intro f hf nv hnv
  rcases List.mem_cons.mp hf with h1 | h1
  · subst h1
    have : nv = ⟨0, 0, 1⟩ := (Option.some.inj hnv).symm
    subst this
    exact ⟨⟨0, 0, 1⟩, by with_unfolding_all rfl⟩
  · cases h1

/-- Claim C2 (counterexample): a solid with a single face whose normal
evaluates to the zero vector.  The claim says such a face is skipped
(so the selector should exhaust the faces and fail with
`noSuitableFace`); the code instead propagates the zero-length
`ValueError` raised by `unit_vector`, which is not inside the
`try/except`. -/
theorem best_face_zero_normal_fatal :
    best_face_for_direction [⟨some ⟨0, 0, 0⟩, ⟨7, 0, 0⟩⟩] ⟨1, 0, 0⟩ =
      .error .zeroLengthVector ∧
    best_face_for_direction [⟨some ⟨0, 0, 0⟩, ⟨7, 0, 0⟩⟩] ⟨1, 0, 0⟩ ≠
      .error .noSuitableFace := by
  have h : best_face_for_direction [⟨some ⟨0, 0, 0⟩, ⟨7, 0, 0⟩⟩] ⟨1, 0, 0⟩ =
      .error .zeroLengthVector := by with_unfolding_all rfl
  refine ⟨h, ?_⟩
  rw [h]
  intro hc
  injection hc with h2
  exact absurd h2 (by decide)

/-- Claim C3: whenever `make_face_plane_placement` succeeds (in
particular whenever the face's midpoint normal is nonzero with rational
lengths at each normalisation), the resulting frame has three unit
axes, pairwise orthogonal, forming a right-handed basis
(`X × Y = Z`), with Z the unit face normal and origin at the face
centroid.  The construction goes through the provisional up reference
`upRef` (world +Z, or world +Y when `|dot(normal,+Z)| > 0.95`), and the
statement holds for both branches since the proof never inspects which
reference was chosen. -/
theorem make_face_plane_placement_orthonormal (face : Face) (fr : Frame)
    (h : make_face_plane_placement face = .ok fr) :
    normSq fr.xAxis = 1 ∧ normSq fr.yAxis = 1 ∧ normSq fr.zAxis = 1 ∧
    dot fr.xAxis fr.yAxis = 0 ∧ dot fr.xAxis fr.zAxis = 0 ∧
    dot fr.yAxis fr.zAxis = 0 ∧
    cross fr.xAxis fr.yAxis = fr.zAxis ∧
    fr.origin = face.centroid ∧
    ∃ nv, face.normalAtMid = some nv ∧ unit_vector nv = .ok fr.zAxis := by
  unfold make_face_plane_placement at h
  split at h
  · exact Except.noConfusion h
  rename_i nv hnm
  split at h
  · exact Except.noConfusion h
  rename_i n hun
  split at h
  · exact Except.noConfusion h
  rename_i xa hux
  split at h
  · exact Except.noConfusion h
  rename_i ya huy
  have hfr : fr = ⟨face.centroid, xa, ya, n⟩ := (Except.ok.inj h).symm
  subst hfr
  have hn1 : normSq n = 1 := unit_vector_normSq hun
  have hx1 : normSq xa = 1 := unit_vector_normSq hux
  have hy1 : normSq ya = 1 := unit_vector_normSq huy
  obtain ⟨lx, hlx0, hlxnz, hlxsq, hxa⟩ := unit_vector_ok_elim hux
  obtain ⟨ly, hly0, hlynz, hlysq, hya⟩ := unit_vector_ok_elim huy
  have hxz : dot xa n = 0 := by
    rw [hxa, dot_smul_left]
    rw [dot_cross_right]
    ring
  have hyz : dot ya n = 0 := by
    rw [hya, dot_smul_left, dot_cross_left]
    ring
  have hxy : dot xa ya = 0 := by
    rw [hya, dot_comm, dot_smul_left, dot_cross_right]
    ring
  have hly1 : ly = 1 := by
    have hcr : normSq (cross n xa) = 1 := by
      rw [normSq_cross, hn1, hx1]
      have hnx : dot n xa = 0 := by rw [dot_comm]; exact hxz
      rw [hnx]
      ring
    have h2 : ly * ly = 1 := by rw [hlysq, hcr]
    have h3 : (ly - 1) * (ly + 1) = 0 := by linear_combination h2
    rcases mul_eq_zero.mp h3 with h4 | h4
    · linarith
    · linarith
  have hyeq : ya = cross n xa := by
    rw [hya, hly1]
    norm_num
    ext <;> simp [smul]
  refine ⟨hx1, hy1, hn1, hxy, hxz, hyz, ?_, rfl, nv, hnm, hun⟩
  show cross xa ya = n
  rw [hyeq]
  exact cross_cross_of_unit xa n hx1 hxz

/-- Claim C3 (witness): the theorem applied to two concrete faces, one
near-vertical (normal +X, main up branch) and one horizontal (normal
+Z, fallback up branch: `|dot(normal,+Z)| = 1 > 0.95`). -/
theorem make_face_plane_placement_orthonormal_witness :
    (normSq (⟨0, 1, 0⟩ : Vec) = 1 ∧ normSq (⟨0, 0, 1⟩ : Vec) = 1 ∧
      normSq (⟨1, 0, 0⟩ : Vec) = 1 ∧
      dot ⟨0, 1, 0⟩ ⟨0, 0, 1⟩ = 0 ∧ dot ⟨0, 1, 0⟩ ⟨1, 0, 0⟩ = 0 ∧
      dot ⟨0, 0, 1⟩ ⟨1, 0, 0⟩ = 0 ∧
      cross ⟨0, 1, 0⟩ ⟨0, 0, 1⟩ = ⟨1, 0, 0⟩ ∧
      (⟨5, 6, 7⟩ : Vec) = (⟨5, 6, 7⟩ : Vec) ∧
      ∃ nv, (some (⟨1, 0, 0⟩ : Vec) : Option Vec) = some nv ∧
        unit_vector nv = .ok ⟨1, 0, 0⟩) ∧
    (normSq (⟨1, 0, 0⟩ : Vec) = 1 ∧ normSq (⟨0, 1, 0⟩ : Vec) = 1 ∧
      normSq (⟨0, 0, 1⟩ : Vec) = 1 ∧
      dot ⟨1, 0, 0⟩ ⟨0, 1, 0⟩ = 0 ∧ dot ⟨1, 0, 0⟩ ⟨0, 0, 1⟩ = 0 ∧
      dot ⟨0, 1, 0⟩ ⟨0, 0, 1⟩ = 0 ∧
      cross ⟨1, 0, 0⟩ ⟨0, 1, 0⟩ = ⟨0, 0, 1⟩ ∧
      (⟨2, 2, 9⟩ : Vec) = (⟨2, 2, 9⟩ : Vec) ∧
      ∃ nv, (some (⟨0, 0, 1⟩ : Vec) : Option Vec) = some nv ∧
        unit_vector nv = .ok ⟨0, 0, 1⟩) :=
  ⟨make_face_plane_placement_orthonormal ⟨some ⟨1, 0, 0⟩, ⟨5, 6, 7⟩⟩
      ⟨⟨5, 6, 7⟩, ⟨0, 1, 0⟩, ⟨0, 0, 1⟩, ⟨1, 0, 0⟩⟩ (by with_unfolding_all rfl),
   make_face_plane_placement_orthonormal ⟨some ⟨0, 0, 1⟩, ⟨2, 2, 9⟩⟩
      ⟨⟨2, 2, 9⟩, ⟨1, 0, 0⟩, ⟨0, 1, 0⟩, ⟨0, 0, 1⟩⟩ (by with_unfolding_all rfl)⟩

/-! Helper lemmas: point semantics of the boolean operations. -/

theorem mem_fuse (p : Vec) (a b : Solid) : p ∈ fuse a b ↔ p ∈ a ∨ p ∈ b := by
  simp [fuse]

theorem mem_cut (p : Vec) (a b : Solid) : p ∈ cut a b ↔ p ∈ a ∧ p ∉ b := by
  simp [cut]

/-- Claim C6: for every blank and legend volume, `combine` returns the
boolean union when the mode is "raise", the boolean difference blank
minus legend when the mode is "engrave", and fails with `invalidMode`
for every other mode string, performing no boolean operation on the
blank. -/
theorem combine_spec (blank legend : Solid) (mode : String) :
    (mode = "raise" → ∃ s, combine blank legend mode = .ok s ∧
      ∀ p : Vec, p ∈ s ↔ (p ∈ blank ∨ p ∈ legend)) ∧
    (mode = "engrave" → ∃ s, combine blank legend mode = .ok s ∧
      ∀ p : Vec, p ∈ s ↔ (p ∈ blank ∧ p ∉ legend)) ∧
    (mode ≠ "raise" → mode ≠ "engrave" →
      combine blank legend mode = .error .invalidMode) := by
  refine ⟨?_, ?_, ?_⟩
  · intro hm
    refine ⟨fuse blank legend, ?_, fun p => mem_fuse p blank legend⟩
    simp [combine, hm]
  · intro hm
    refine ⟨cut blank legend, ?_, fun p => mem_cut p blank legend⟩
    simp [combine, hm]
  · intro h1 h2
    simp [combine, h1, h2]

/-- Claim C6 (witness): `combine_spec` applied to a concrete blank of
two points and a one-point legend, in all three mode cases. -/
theorem combine_spec_witness :
    (∃ s, combine [⟨0, 0, 0⟩, ⟨1, 0, 0⟩] [⟨1, 0, 0⟩] "raise" = .ok s ∧
      ∀ p : Vec, p ∈ s ↔ (p ∈ [(⟨0, 0, 0⟩ : Vec), ⟨1, 0, 0⟩] ∨ p ∈ [(⟨1, 0, 0⟩ : Vec)])) ∧
    (∃ s, combine [⟨0, 0, 0⟩, ⟨1, 0, 0⟩] [⟨1, 0, 0⟩] "engrave" = .ok s ∧
      ∀ p : Vec, p ∈ s ↔ (p ∈ [(⟨0, 0, 0⟩ : Vec), ⟨1, 0, 0⟩] ∧ p ∉ [(⟨1, 0, 0⟩ : Vec)])) ∧
    combine [⟨0, 0, 0⟩, ⟨1, 0, 0⟩] [⟨1, 0, 0⟩] "emboss" = .error .invalidMode :=
  ⟨(combine_spec [⟨0, 0, 0⟩, ⟨1, 0, 0⟩] [⟨1, 0, 0⟩] "raise").1 rfl,
   (combine_spec [⟨0, 0, 0⟩, ⟨1, 0, 0⟩] [⟨1, 0, 0⟩] "engrave").2.1 rfl,
   (combine_spec [⟨0, 0, 0⟩, ⟨1, 0, 0⟩] [⟨1, 0, 0⟩] "emboss").2.2
     (by decide) (by decide)⟩

/-- Claim C7: the face-selection table and the engraving table have
exactly the same key sequence (the six annotated direction names), and
for every name the engraving direction is the negation of the
face-selection direction, both being unit axis vectors. -/
theorem direction_tables_antiparallel :
    FACE_DIRECTIONS.map Prod.fst =
      ["Top (+Z)", "Bottom (-Z)", "Front (+Y)", "Back (-Y)", "Right (+X)", "Left (-X)"] ∧
    ENGRAVING_DIRECTIONS.map Prod.fst =
      ["Top (+Z)", "Bottom (-Z)", "Front (+Y)", "Back (-Y)", "Right (+X)", "Left (-X)"] ∧
    (∀ p ∈ FACE_DIRECTIONS, ∃ q ∈ ENGRAVING_DIRECTIONS,
      q.1 = p.1 ∧ q.2 = vneg p.2 ∧ normSq p.2 = 1 ∧
      p.2 ∈ [(⟨1, 0, 0⟩ : Vec), ⟨-1, 0, 0⟩, ⟨0, 1, 0⟩, ⟨0, -1, 0⟩, ⟨0, 0, 1⟩, ⟨0, 0, -1⟩]) ∧
    (∀ q ∈ ENGRAVING_DIRECTIONS, ∃ p ∈ FACE_DIRECTIONS,
      p.1 = q.1 ∧ q.2 = vneg p.2) :=
  of_decide_eq_true (by with_unfolding_all rfl)

/-- Claim C7 (witness): the antiparallel-pairing clause of
`direction_tables_antiparallel` instantiated at the "Top (+Z)" entry. -/
theorem direction_tables_antiparallel_witness :
    ∃ q ∈ ENGRAVING_DIRECTIONS,
      q.1 = ("Top (+Z)", (⟨0, 0, 1⟩ : Vec)).1 ∧
      q.2 = vneg ("Top (+Z)", (⟨0, 0, 1⟩ : Vec)).2 ∧
      normSq ("Top (+Z)", (⟨0, 0, 1⟩ : Vec)).2 = 1 ∧
      ("Top (+Z)", (⟨0, 0, 1⟩ : Vec)).2 ∈
        [(⟨1, 0, 0⟩ : Vec), ⟨-1, 0, 0⟩, ⟨0, 1, 0⟩, ⟨0, -1, 0⟩, ⟨0, 0, 1⟩, ⟨0, 0, -1⟩] :=
  direction_tables_antiparallel.2.2.1 ("Top (+Z)", ⟨0, 0, 1⟩)
    (of_decide_eq_true (by with_unfolding_all rfl))

/-- Claim C4 (counterexample): in the `core.py` pipeline the
`0.05`-unit translation along local -Z is applied even when the mode is
"raise" — the legend outline of a raise-mode build is recessed by 0.05
below the face plane, refuting "in raise mode no such translation is
applied". -/
theorem overlap_applied_in_raise_mode :
    (⟨"raise", 6, 3 / 5, 0, 0, 2 / 25⟩ : ExportConfigUI).mode = "raise" ∧
    (⟨"raise", 6, 3 / 5, 0, 0, 2 / 25⟩ : ExportConfigUI).mode ≠ "engrave" ∧
    legend_local_ui ⟨"raise", 6, 3 / 5, 0, 0, 2 / 25⟩ [⟨0, 0, 0⟩] =
      [⟨0, 0, -(1 / 20)⟩] ∧
    (⟨0, 0, -(1 / 20)⟩ : Vec) ≠ ⟨0, 0, 0⟩ :=
  ⟨rfl, by decide, by with_unfolding_all rfl,
   of_decide_eq_true (by with_unfolding_all rfl)⟩

/-- Claim C4 (amended): the 0.05 translation along the frame's negative
normal is applied unconditionally in the `batch_keycaps_export_stl_ui`
pipeline — the local legend chain never consults the mode, so raise and
engrave builds are both recessed by `overlap = 0.05`; the
`keycap_exporter_core` pipeline applies no such translation in either
mode (its local chain preserves the outline's Z coordinates). -/
theorem overlap_translation_mode_independent :
    (∀ (m m2 : String) (sz d ox oy ld : ℚ) (outline : Shape),
      legend_local_ui ⟨m, sz, d, ox, oy, ld⟩ outline =
        legend_local_ui ⟨m2, sz, d, ox, oy, ld⟩ outline) ∧
    (∀ (cfg : ExportConfigUI) (outline : Shape),
      legend_local_ui cfg outline =
        translate ⟨0, 0, -overlap⟩
          (legend_local_core cfg.offset_x_mm cfg.offset_y_mm outline)) ∧
    (∀ (ox oy : ℚ) (outline : Shape),
      (legend_local_core ox oy outline).map Vec.z = outline.map Vec.z) ∧
    (∀ (cfg : ExportConfigUI) (outline : Shape),
      (legend_local_ui cfg outline).map Vec.z =
        outline.map (fun p => p.z - overlap)) := by
  refine ⟨fun m m2 sz d ox oy ld outline => rfl, fun cfg outline => rfl, ?_, ?_⟩
  · intro ox oy outline
    simp [legend_local_core, recenter_xy, translate, List.map_map, Function.comp, vadd]
  · intro cfg outline
    simp only [legend_local_ui, legend_local_core, recenter_xy, translate,
      List.map_map]
    congr 1
    funext p
    simp [vadd, Function.comp]
    ring

/-! Helper lemma for the batch loop (claim C5). -/

/-- Rows processed successfully just accumulate their outputs. -/
theorem exportLoop_ok_initial {α β : Type} (process : α → Except GeomError β)
    (f : α → β) :
    ∀ (pre : List α) (acc : List β), (∀ q ∈ pre, process q = .ok (f q)) →
    ∀ (rest : List α),
      exportLoop process (pre ++ rest) acc =
        exportLoop process rest (acc ++ pre.map f) := by
  intro pre
  induction pre with
  | nil => intro acc _ rest; simp
  | cons q pre ih =>
    intro acc hok rest
    have hq : process q = .ok (f q) := hok q (List.mem_cons_self q pre)
    simp only [List.cons_append, exportLoop, hq]
    show exportLoop process (pre ++ rest) (acc ++ [f q]) = _
    rw [ih (acc ++ [f q]) (fun r hr => hok r (List.mem_cons_of_mem q hr)) rest]
    simp

/-- Claim C5 (amended): the per-row export loop has no per-row error
handling: if every row before `r` succeeds and `r` fails, the batch
stops at `r` — the outputs are exactly those of the successful prefix,
the error propagates, and no later row is processed or written. -/
theorem batch_aborts_on_row_failure {α β : Type} (process : α → Except GeomError β)
    (f : α → β) (pre post : List α) (r : α) (e : GeomError)
    (hok : ∀ q ∈ pre, process q = .ok (f q)) (hr : process r = .error e) :
    generate_keycaps_batch process (pre ++ r :: post) = (pre.map f, some e) := by
  unfold generate_keycaps_batch
  rw [exportLoop_ok_initial process f pre [] hok (r :: post)]
  simp only [exportLoop, hr]
  simp

/-- Claim C5 (witness): three rows where only row 2 fails; the loop
writes row 1, stops at row 2, and never reaches row 3. -/
theorem batch_aborts_on_row_failure_witness :
    generate_keycaps_batch
        (fun n : Nat => if n = 2 then .error .outlineGenerationFailed else .ok n)
        ([1] ++ 2 :: [3]) =
      ([1].map (fun n : Nat => n), some .outlineGenerationFailed) := by
  refine batch_aborts_on_row_failure
    (fun n : Nat => if n = 2 then .error .outlineGenerationFailed else .ok n)
    (fun n : Nat => n) [1] [3] 2 .outlineGenerationFailed ?_ rfl
  intro q hq
  rcases List.mem_cons.mp hq with h1 | h1
  · subst h1; rfl
  · cases h1

/-- Claim C5 (counterexample): with rows [1, 2, 3] where only row 2
fails, the batch produces output for row 1 only and surfaces the error;
row 3's output is never produced, refuting "every remaining row is
still processed and its output file written". -/
theorem batch_counterexample :
    generate_keycaps_batch
        (fun n : Nat => if n = 2 then .error .outlineGenerationFailed else .ok n)
        [1, 2, 3] =
      ([1], some .outlineGenerationFailed) ∧
    (3 : Nat) ∉ (generate_keycaps_batch
        (fun n : Nat => if n = 2 then .error .outlineGenerationFailed else .ok n)
        [1, 2, 3]).1 := by
  have h : generate_keycaps_batch
      (fun n : Nat => if n = 2 then .error .outlineGenerationFailed else .ok n)
      [1, 2, 3] = ([1], some .outlineGenerationFailed) := rfl
  refine ⟨h, ?_⟩
  rw [h]
  decide

/-- Claim C9 (counterexample): a build with depth 0 does fail with
`invalidDepth`, but only at extrusion time — the outline has already
been generated (the event log contains it), refuting "both checks are
performed before any outline work is done". -/
theorem depth_check_after_outline :
    build_keycap_ui ⟨"engrave", 6, 0, 0, 0, 2 / 25⟩ (fun _ _ => [⟨0, 0, 0⟩])
        ⟨⟨0, 0, 0⟩, ⟨⟨1, 0, 0⟩, ⟨0, 1, 0⟩, ⟨0, 0, 1⟩⟩⟩ [⟨0, 0, 0⟩] "A" =
      ([.outlineGenerated "A"], .error .invalidDepth) ∧
    BuildEvent.outlineGenerated "A" ∈
      (build_keycap_ui ⟨"engrave", 6, 0, 0, 0, 2 / 25⟩ (fun _ _ => [⟨0, 0, 0⟩])
        ⟨⟨0, 0, 0⟩, ⟨⟨1, 0, 0⟩, ⟨0, 1, 0⟩, ⟨0, 0, 1⟩⟩⟩ [⟨0, 0, 0⟩] "A").1 := by
  have h : build_keycap_ui ⟨"engrave", 6, 0, 0, 0, 2 / 25⟩ (fun _ _ => [⟨0, 0, 0⟩])
      ⟨⟨0, 0, 0⟩, ⟨⟨1, 0, 0⟩, ⟨0, 1, 0⟩, ⟨0, 0, 1⟩⟩⟩ [⟨0, 0, 0⟩] "A" =
      ([.outlineGenerated "A"], .error .invalidDepth) := by with_unfolding_all rfl
  refine ⟨h, ?_⟩
  rw [h]
  exact List.mem_cons_self _ _

/-- Claim C9 (amended): `extrude_to_solid` (batch UI pipeline) rejects
every non-positive depth with `invalidDepth` and `shape_to_mesh`
rejects every non-positive tessellation tolerance with
`invalidDeflection`, but neither check precedes outline work: in the
build pipeline the depth check runs at extrusion time, after the
outline has been generated (the failing result still carries the
outline event), and the tolerance check runs only at meshing time.
(The `keycap_exporter_core` variant `extrude_to_solid_core` performs no
depth validation at all.) -/
theorem validation_checks_after_outline (cfg : ExportConfigUI)
    (outlineOf : String → ℚ → Shape) (fp : Placement) (blank : Solid)
    (label : String) :
    (cfg.depth_mm ≤ 0 →
      build_keycap_ui cfg outlineOf fp blank label =
        ([.outlineGenerated label], .error .invalidDepth)) ∧
    (∀ (s : Shape) (ld : ℚ), ld ≤ 0 →
      shape_to_mesh s ld = .error .invalidDeflection) ∧
    (∀ (s : Shape) (h : ℚ), 0 < h →
      extrude_to_solid_ui s h = .ok (extrudePts s ⟨0, 0, h⟩)) := by
  refine ⟨?_, ?_, ?_⟩
  · intro hdep
    unfold build_keycap_ui
    simp [extrude_to_solid_ui, hdep]
  · intro s ld hld
    simp [shape_to_mesh, hld]
  · intro s h hh
    simp [extrude_to_solid_ui, not_le.mpr hh]

/-- Claim C9 (witness): the depth branch applied at a zero-depth
configuration and the tolerance branch at a zero tolerance. -/
theorem validation_checks_after_outline_witness :
    build_keycap_ui ⟨"raise", 6, 0, 1, 2, 2 / 25⟩ (fun _ _ => [⟨1, 1, 0⟩])
        ⟨⟨0, 0, 0⟩, ⟨⟨1, 0, 0⟩, ⟨0, 1, 0⟩, ⟨0, 0, 1⟩⟩⟩ [⟨0, 0, 0⟩] "B" =
      ([.outlineGenerated "B"], .error .invalidDepth) ∧
    shape_to_mesh [⟨0, 0, 0⟩] 0 = .error .invalidDeflection :=
  ⟨(validation_checks_after_outline ⟨"raise", 6, 0, 1, 2, 2 / 25⟩
      (fun _ _ => [⟨1, 1, 0⟩]) ⟨⟨0, 0, 0⟩, ⟨⟨1, 0, 0⟩, ⟨0, 1, 0⟩, ⟨0, 0, 1⟩⟩⟩
      [⟨0, 0, 0⟩] "B").1 (by decide),
   (validation_checks_after_outline ⟨"raise", 6, 0, 1, 2, 2 / 25⟩
      (fun _ _ => [⟨1, 1, 0⟩]) ⟨⟨0, 0, 0⟩, ⟨⟨1, 0, 0⟩, ⟨0, 1, 0⟩, ⟨0, 0, 1⟩⟩⟩
      [⟨0, 0, 0⟩] "B").2.1 [⟨0, 0, 0⟩] 0 (by decide)⟩

/-- Claim C10: in `build_keycap_with_legend_shape` the primary legend's
configured in-plane offset is replaced by (0,0) exactly when all three
secondary labels are absent or empty: with no truthy secondary the
build is independent of the configured primary offset and equals the
explicit-offset build at (0,0); with at least one truthy secondary it
equals the explicit-offset build at the configured offset. -/
theorem primary_offset_gating (cfg : ExportConfigurationCore)
    (outlineOf : String → ℚ → Shape) (fp : Placement) (ev : Vec) (blank : Solid)
    (label : String) (shift_label altcr_label fn_label : Option String) :
    ((truthy shift_label || truthy altcr_label || truthy fn_label) = false →
      (build_keycap_core cfg outlineOf fp ev blank label
          shift_label altcr_label fn_label =
        build_keycap_core_with_primary_offset 0 0 cfg outlineOf fp ev blank label
          shift_label altcr_label fn_label) ∧
      (∀ pox2 poy2 : ℚ,
        build_keycap_core cfg outlineOf fp ev blank label
            shift_label altcr_label fn_label =
          build_keycap_core
            ⟨cfg.mode, cfg.primary_font_size, pox2, poy2,
             cfg.shift_font_size, cfg.shift_offset_x, cfg.shift_offset_y,
             cfg.altcr_font_size, cfg.altcr_offset_x, cfg.altcr_offset_y,
             cfg.fn_font_size, cfg.fn_offset_x, cfg.fn_offset_y⟩
            outlineOf fp ev blank label shift_label altcr_label fn_label)) ∧
    ((truthy shift_label || truthy altcr_label || truthy fn_label) = true →
      build_keycap_core cfg outlineOf fp ev blank label
          shift_label altcr_label fn_label =
        build_keycap_core_with_primary_offset
          cfg.primary_offset_x cfg.primary_offset_y cfg outlineOf fp ev blank label
          shift_label altcr_label fn_label) := by
  constructor
  · intro hfalse
    constructor
    · unfold build_keycap_core build_keycap_core_with_primary_offset
      rw [hfalse]
      simp
    · intro pox2 poy2
      unfold build_keycap_core
      rw [hfalse]
      simp
  · intro htrue
    unfold build_keycap_core build_keycap_core_with_primary_offset
    rw [htrue]
    simp

/-- Claim C10 (witness): with all secondaries empty, two configurations
differing only in the configured primary offset (7,8) vs (9,10) build
the same keycap, and both equal the explicit (0,0)-offset build. -/
theorem primary_offset_gating_witness :
    (build_keycap_core ⟨"engrave", 6, 7, 8, 4, 1, 1, 4, 2, 2, 4, 3, 3⟩
        (fun _ _ => [⟨0, 0, 0⟩]) ⟨⟨0, 0, 0⟩, ⟨⟨1, 0, 0⟩, ⟨0, 1, 0⟩, ⟨0, 0, 1⟩⟩⟩
        ⟨0, 0, -1⟩ [⟨0, 0, 0⟩] "A" none (some "") none =
      build_keycap_core_with_primary_offset 0 0
        ⟨"engrave", 6, 7, 8, 4, 1, 1, 4, 2, 2, 4, 3, 3⟩
        (fun _ _ => [⟨0, 0, 0⟩]) ⟨⟨0, 0, 0⟩, ⟨⟨1, 0, 0⟩, ⟨0, 1, 0⟩, ⟨0, 0, 1⟩⟩⟩
        ⟨0, 0, -1⟩ [⟨0, 0, 0⟩] "A" none (some "") none) ∧
    (build_keycap_core ⟨"engrave", 6, 7, 8, 4, 1, 1, 4, 2, 2, 4, 3, 3⟩
        (fun _ _ => [⟨0, 0, 0⟩]) ⟨⟨0, 0, 0⟩, ⟨⟨1, 0, 0⟩, ⟨0, 1, 0⟩, ⟨0, 0, 1⟩⟩⟩
        ⟨0, 0, -1⟩ [⟨0, 0, 0⟩] "A" none (some "") none =
      build_keycap_core ⟨"engrave", 6, 9, 10, 4, 1, 1, 4, 2, 2, 4, 3, 3⟩
        (fun _ _ => [⟨0, 0, 0⟩]) ⟨⟨0, 0, 0⟩, ⟨⟨1, 0, 0⟩, ⟨0, 1, 0⟩, ⟨0, 0, 1⟩⟩⟩
        ⟨0, 0, -1⟩ [⟨0, 0, 0⟩] "A" none (some "") none) ∧
    (build_keycap_core ⟨"engrave", 6, 7, 8, 4, 1, 1, 4, 2, 2, 4, 3, 3⟩
        (fun _ _ => [⟨0, 0, 0⟩]) ⟨⟨0, 0, 0⟩, ⟨⟨1, 0, 0⟩, ⟨0, 1, 0⟩, ⟨0, 0, 1⟩⟩⟩
        ⟨0, 0, -1⟩ [⟨0, 0, 0⟩] "A" (some "S") none none =
      build_keycap_core_with_primary_offset 7 8
        ⟨"engrave", 6, 7, 8, 4, 1, 1, 4, 2, 2, 4, 3, 3⟩
        (fun _ _ => [⟨0, 0, 0⟩]) ⟨⟨0, 0, 0⟩, ⟨⟨1, 0, 0⟩, ⟨0, 1, 0⟩, ⟨0, 0, 1⟩⟩⟩
        ⟨0, 0, -1⟩ [⟨0, 0, 0⟩] "A" (some "S") none none) :=
  ⟨((primary_offset_gating ⟨"engrave", 6, 7, 8, 4, 1, 1, 4, 2, 2, 4, 3, 3⟩
      (fun _ _ => [⟨0, 0, 0⟩]) ⟨⟨0, 0, 0⟩, ⟨⟨1, 0, 0⟩, ⟨0, 1, 0⟩, ⟨0, 0, 1⟩⟩⟩
      ⟨0, 0, -1⟩ [⟨0, 0, 0⟩] "A" none (some "") none).1 (by decide)).1,
   ((primary_offset_gating ⟨"engrave", 6, 7, 8, 4, 1, 1, 4, 2, 2, 4, 3, 3⟩
      (fun _ _ => [⟨0, 0, 0⟩]) ⟨⟨0, 0, 0⟩, ⟨⟨1, 0, 0⟩, ⟨0, 1, 0⟩, ⟨0, 0, 1⟩⟩⟩
      ⟨0, 0, -1⟩ [⟨0, 0, 0⟩] "A" none (some "") none).1 (by decide)).2 9 10,
   (primary_offset_gating ⟨"engrave", 6, 7, 8, 4, 1, 1, 4, 2, 2, 4, 3, 3⟩
      (fun _ _ => [⟨0, 0, 0⟩]) ⟨⟨0, 0, 0⟩, ⟨⟨1, 0, 0⟩, ⟨0, 1, 0⟩, ⟨0, 0, 1⟩⟩⟩
      ⟨0, 0, -1⟩ [⟨0, 0, 0⟩] "A" (some "S") none none).2 (by decide)⟩

/-! Helper lemmas for bounding-box midpoints (claim C8). -/

theorem foldl_min_add (c : ℚ) :
    ∀ (l : List ℚ) (a : ℚ),
    List.foldl min (a + c) (l.map (fun t => t + c)) = List.foldl min a l + c := by
  intro l
  induction l with
  | nil => intro a; rfl
  | cons b l ih =>
    intro a
    simp only [List.map_cons, List.foldl_cons]
    rw [min_add_add_right]
    exact ih (min a b)

theorem foldl_max_add (c : ℚ) :
    ∀ (l : List ℚ) (a : ℚ),
    List.foldl max (a + c) (l.map (fun t => t + c)) = List.foldl max a l + c := by
  intro l
  induction l with
  | nil => intro a; rfl
  | cons b l ih =>
    intro a
    simp only [List.map_cons, List.foldl_cons]
    rw [max_add_add_right]
    exact ih (max a b)

theorem foldl_min_sub (c : ℚ) :
    ∀ (l : List ℚ) (a : ℚ),
    List.foldl min (c - a) (l.map (fun t => c - t)) = c - List.foldl max a l := by
  intro l
  induction l with
  | nil => intro a; rfl
  | cons b l ih =>
    intro a
    simp only [List.map_cons, List.foldl_cons]
    rw [min_sub_sub_left]
    exact ih (max a b)

theorem foldl_max_sub (c : ℚ) :
    ∀ (l : List ℚ) (a : ℚ),
    List.foldl max (c - a) (l.map (fun t => c - t)) = c - List.foldl min a l := by
  intro l
  induction l with
  | nil => intro a; rfl
  | cons b l ih =>
    intro a
    simp only [List.map_cons, List.foldl_cons]
    rw [max_sub_sub_left]
    exact ih (min a b)

theorem foldl_min_const (c : ℚ) :
    ∀ (l : List ℚ) (a : ℚ), (∀ t ∈ l, t = c) → a = c →
    List.foldl min a l = c := by
  intro l
  induction l with
  | nil => intro a _ ha; exact ha
  | cons b l ih =>
    intro a hl ha
    simp only [List.foldl_cons]
    refine ih (min a b) (fun t ht => hl t (List.mem_cons_of_mem b ht)) ?_
    rw [ha, hl b (List.mem_cons_self b l)]
    exact min_self c

theorem foldl_max_const (c : ℚ) :
    ∀ (l : List ℚ) (a : ℚ), (∀ t ∈ l, t = c) → a = c →
    List.foldl max a l = c := by
  intro l
  induction l with
  | nil => intro a _ ha; exact ha
  | cons b l ih =>
    intro a hl ha
    simp only [List.foldl_cons]
    refine ih (max a b) (fun t ht => hl t (List.mem_cons_of_mem b ht)) ?_
    rw [ha, hl b (List.mem_cons_self b l)]
    exact max_self c

/-- Midpoint of min and max after adding `c` to a coordinate. -/
theorem center_after_add (g : Vec → ℚ) (c : ℚ) :
    ∀ (s : List Vec), s ≠ [] →
    (listMin (s.map g) + listMax (s.map g)) / 2 = 0 →
    (listMin (s.map (fun p => g p + c)) +
      listMax (s.map (fun p => g p + c))) / 2 = c := by
  intro s hne h0
  match s with
  | [] => exact absurd rfl hne
  | p :: ps =>
    simp only [List.map_cons, listMin, listMax] at h0 ⊢
    have hmap : ps.map (fun q => g q + c) = (ps.map g).map (fun t => t + c) := by
      simp [List.map_map, Function.comp]
    rw [hmap, foldl_min_add, foldl_max_add]
    linarith

/-- Midpoint of min and max after replacing a coordinate by `c` minus
itself. -/
theorem center_after_sub (g : Vec → ℚ) (c : ℚ) :
    ∀ (s : List Vec), s ≠ [] →
    (listMin (s.map g) + listMax (s.map g)) / 2 = 0 →
    (listMin (s.map (fun p => c - g p)) +
      listMax (s.map (fun p => c - g p))) / 2 = c := by
  intro s hne h0
  match s with
  | [] => exact absurd rfl hne
  | p :: ps =>
    simp only [List.map_cons, listMin, listMax] at h0 ⊢
    have hmap : ps.map (fun q => c - g q) = (ps.map g).map (fun t => c - t) := by
      simp [List.map_map, Function.comp]
    rw [hmap, foldl_min_sub, foldl_max_sub]
    linarith

/-- Midpoint of min and max of a coordinate that is constantly `c`. -/
theorem center_after_const (g : Vec → ℚ) (c : ℚ) :
    ∀ (s : List Vec), s ≠ [] → (∀ p ∈ s, g p = c) →
    (listMin (s.map g) + listMax (s.map g)) / 2 = c := by
  intro s hne hc
  match s with
  | [] => exact absurd rfl hne
  | p :: ps =>
    simp only [List.map_cons, listMin, listMax]
    have hcs : ∀ t ∈ ps.map g, t = c := by
      intro t ht
      obtain ⟨q, hq, rfl⟩ := List.mem_map.mp ht
      exact hc q (List.mem_cons_of_mem p hq)
    have hp : g p = c := hc p (List.mem_cons_self p ps)
    rw [foldl_min_const c (ps.map g) (g p) hcs hp,
      foldl_max_const c (ps.map g) (g p) hcs hp]
    linarith

/-- Midpoint of min and max shifts along with an added constant. -/
theorem center_map_add (g : Vec → ℚ) (c : ℚ) :
    ∀ (s : List Vec), s ≠ [] →
    (listMin (s.map (fun p => g p + c)) +
      listMax (s.map (fun p => g p + c))) / 2 =
    (listMin (s.map g) + listMax (s.map g)) / 2 + c := by
  intro s hne
  match s with
  | [] => exact absurd rfl hne
  | p :: ps =>
    simp only [List.map_cons, listMin, listMax]
    have hmap : ps.map (fun q => g q + c) = (ps.map g).map (fun t => t + c) := by
      simp [List.map_map, Function.comp]
    rw [hmap, foldl_min_add, foldl_max_add]
    ring

/-- The recentering translation produces a shape whose bounding-box
midpoint in X and Y is exactly (0, 0). -/
theorem recenter_xy_centered (outline : Shape) (hne : outline ≠ []) :
    bboxCenterX (recenter_xy outline) = 0 ∧ bboxCenterY (recenter_xy outline) = 0 := by
  constructor
  · have hmap : xCoords (recenter_xy outline) =
        outline.map (fun p => p.x + -(bboxCenterX outline)) := by
      unfold xCoords recenter_xy translate
      rw [List.map_map]
      rfl
    unfold bboxCenterX
    rw [hmap, center_map_add Vec.x (-(bboxCenterX outline)) outline hne]
    show bboxCenterX outline + -(bboxCenterX outline) = 0
    ring
  · have hmap : yCoords (recenter_xy outline) =
        outline.map (fun p => p.y + -(bboxCenterY outline)) := by
      unfold yCoords recenter_xy translate
      rw [List.map_map]
      rfl
    unfold bboxCenterY
    rw [hmap, center_map_add Vec.y (-(bboxCenterY outline)) outline hne]
    show bboxCenterY outline + -(bboxCenterY outline) = 0
    ring

/-- For each of the six fixed face rotations (signed axis
permutations), placing a planar shape whose bounding box is centered at
the local origin yields a world shape whose XY bounding-box midpoint is
the placement position's XY projection. -/
theorem placed_bbox_center (s : List Vec) (hs : s ≠ [])
    (hz : ∀ p ∈ s, p.z = 0) (hcx0 : bboxCenterX s = 0) (hcy0 : bboxCenterY s = 0) :
    ∀ (nm : String) (rot : Rot), (nm, rot) ∈ FACE_ROTATION → ∀ T : Vec,
      bboxCenterX (placeApply ⟨T, rot⟩ s) = T.x ∧
      bboxCenterY (placeApply ⟨T, rot⟩ s) = T.y := by
  have hcx : (listMin (s.map Vec.x) + listMax (s.map Vec.x)) / 2 = 0 := hcx0
  have hcy : (listMin (s.map Vec.y) + listMax (s.map Vec.y)) / 2 = 0 := hcy0
  intro nm rot hmem T
  have hmapx : ∀ r : Rot, xCoords (placeApply ⟨T, r⟩ s) =
      s.map (fun p => (vadd (rotApply r p) T).x) := by
    intro r
    unfold xCoords placeApply
    rw [List.map_map]
    rfl
  have hmapy : ∀ r : Rot, yCoords (placeApply ⟨T, r⟩ s) =
      s.map (fun p => (vadd (rotApply r p) T).y) := by
    intro r
    unfold yCoords placeApply
    rw [List.map_map]
    rfl
  simp only [FACE_ROTATION, List.mem_cons, List.not_mem_nil, or_false,
    Prod.mk.injEq] at hmem
  rcases hmem with ⟨-, hrot⟩ | ⟨-, hrot⟩ | ⟨-, hrot⟩ | ⟨-, hrot⟩ | ⟨-, hrot⟩ | ⟨-, hrot⟩ <;>
    subst hrot <;> constructor
  · -- Top, X: world x = local x + T.x
    unfold bboxCenterX
    rw [hmapx]
    have hfun : (fun p : Vec => (vadd (rotApply ⟨⟨1, 0, 0⟩, ⟨0, 1, 0⟩, ⟨0, 0, 1⟩⟩ p) T).x) =
        fun p : Vec => p.x + T.x := by
      funext p
      dsimp [rotApply, vadd, smul]
      ring
    rw [hfun]
    exact center_after_add Vec.x T.x s hs hcx
  · -- Top, Y: world y = local y + T.y
    unfold bboxCenterY
    rw [hmapy]
    have hfun : (fun p : Vec => (vadd (rotApply ⟨⟨1, 0, 0⟩, ⟨0, 1, 0⟩, ⟨0, 0, 1⟩⟩ p) T).y) =
        fun p : Vec => p.y + T.y := by
      funext p
      dsimp [rotApply, vadd, smul]
      ring
    rw [hfun]
    exact center_after_add Vec.y T.y s hs hcy
  · -- Bottom, X: world x = local x + T.x
    unfold bboxCenterX
    rw [hmapx]
    have hfun : (fun p : Vec => (vadd (rotApply ⟨⟨1, 0, 0⟩, ⟨0, -1, 0⟩, ⟨0, 0, -1⟩⟩ p) T).x) =
        fun p : Vec => p.x + T.x := by
      funext p
      dsimp [rotApply, vadd, smul]
      ring
    rw [hfun]
    exact center_after_add Vec.x T.x s hs hcx
  · -- Bottom, Y: world y = T.y - local y
    unfold bboxCenterY
    rw [hmapy]
    have hfun : (fun p : Vec => (vadd (rotApply ⟨⟨1, 0, 0⟩, ⟨0, -1, 0⟩, ⟨0, 0, -1⟩⟩ p) T).y) =
        fun p : Vec => T.y - p.y := by
      funext p
      dsimp [rotApply, vadd, smul]
      ring
    rw [hfun]
    exact center_after_sub Vec.y T.y s hs hcy
  · -- Front, X: world x = T.x - local x
    unfold bboxCenterX
    rw [hmapx]
    have hfun : (fun p : Vec => (vadd (rotApply ⟨⟨-1, 0, 0⟩, ⟨0, 0, 1⟩, ⟨0, 1, 0⟩⟩ p) T).x) =
        fun p : Vec => T.x - p.x := by
      funext p
      dsimp [rotApply, vadd, smul]
      ring
    rw [hfun]
    exact center_after_sub Vec.x T.x s hs hcx
  · -- Front, Y: world y = local z + T.y, constantly T.y on a planar shape
    unfold bboxCenterY
    rw [hmapy]
    refine center_after_const _ T.y s hs ?_
    intro p hp
    dsimp [rotApply, vadd, smul]
    rw [hz p hp]
    ring
  · -- Back, X: world x = local x + T.x
    unfold bboxCenterX
    rw [hmapx]
    have hfun : (fun p : Vec => (vadd (rotApply ⟨⟨1, 0, 0⟩, ⟨0, 0, 1⟩, ⟨0, -1, 0⟩⟩ p) T).x) =
        fun p : Vec => p.x + T.x := by
      funext p
      dsimp [rotApply, vadd, smul]
      ring
    rw [hfun]
    exact center_after_add Vec.x T.x s hs hcx
  · -- Back, Y: world y = T.y - local z, constantly T.y on a planar shape
    unfold bboxCenterY
    rw [hmapy]
    refine center_after_const _ T.y s hs ?_
    intro p hp
    dsimp [rotApply, vadd, smul]
    rw [hz p hp]
    ring
  · -- Right, X: world x = local z + T.x, constantly T.x on a planar shape
    unfold bboxCenterX
    rw [hmapx]
    refine center_after_const _ T.x s hs ?_
    intro p hp
    dsimp [rotApply, vadd, smul]
    rw [hz p hp]
    ring
  · -- Right, Y: world y = local x + T.y
    unfold bboxCenterY
    rw [hmapy]
    have hfun : (fun p : Vec => (vadd (rotApply ⟨⟨0, 1, 0⟩, ⟨0, 0, 1⟩, ⟨1, 0, 0⟩⟩ p) T).y) =
        fun p : Vec => p.x + T.y := by
      funext p
      dsimp [rotApply, vadd, smul]
      ring
    rw [hfun]
    exact center_after_add Vec.x T.y s hs hcx
  · -- Left, X: world x = T.x - local z, constantly T.x on a planar shape
    unfold bboxCenterX
    rw [hmapx]
    refine center_after_const _ T.x s hs ?_
    intro p hp
    dsimp [rotApply, vadd, smul]
    rw [hz p hp]
    ring
  · -- Left, Y: world y = T.y - local x
    unfold bboxCenterY
    rw [hmapy]
    have hfun : (fun p : Vec => (vadd (rotApply ⟨⟨0, -1, 0⟩, ⟨0, 0, 1⟩, ⟨-1, 0, 0⟩⟩ p) T).y) =
        fun p : Vec => T.y - p.x := by
      funext p
      dsimp [rotApply, vadd, smul]
      ring
    rw [hfun]
    exact center_after_sub Vec.x T.y s hs hcx

/-- Claim C8 (amended): for every nonempty planar legend outline,
recentering makes the XY bounding-box midpoint exactly (0, 0); and
placing the zero-offset legend with any of the six fixed
`FACE_ROTATION` face frames (signed axis permutations, the frames the
`keycap_exporter_core` pipeline places legends with) puts the placed
legend's XY bounding-box centroid (ignoring Z) exactly at the frame
origin's XY projection.  (As originally stated the claim is refuted by
`placed_center_off_for_general_frame` below: for the arbitrary
orthonormal frames of `make_face_plane_placement`, with which `core.py`
line 36 places legends, the coincidence fails — the bounding box of a
rotated point set need not stay centered.) -/
theorem legend_recenter_centered (outline : Shape) (hne : outline ≠ [])
    (hplanar : ∀ p ∈ outline, p.z = 0) :
    (bboxCenterX (recenter_xy outline) = 0 ∧
      bboxCenterY (recenter_xy outline) = 0) ∧
    (∀ (nm : String) (rot : Rot), (nm, rot) ∈ FACE_ROTATION → ∀ T : Vec,
      bboxCenterX (placeApply ⟨T, rot⟩ (legend_local_core 0 0 outline)) = T.x ∧
      bboxCenterY (placeApply ⟨T, rot⟩ (legend_local_core 0 0 outline)) = T.y) := by
  have hrec := recenter_xy_centered outline hne
  refine ⟨hrec, ?_⟩
  have hrecne : recenter_xy outline ≠ [] := by
    unfold recenter_xy translate
    simp only [ne_eq, List.map_eq_nil_iff]
    exact hne
  have hs : legend_local_core 0 0 outline ≠ [] := by
    unfold legend_local_core translate
    simp only [ne_eq, List.map_eq_nil_iff]
    exact fun hcon => hrecne (by unfold recenter_xy translate at hcon ⊢; exact hcon)
  have hz : ∀ p ∈ legend_local_core 0 0 outline, p.z = 0 := by
    intro p hp
    unfold legend_local_core recenter_xy translate at hp
    rw [List.map_map] at hp
    obtain ⟨q, hq, rfl⟩ := List.mem_map.mp hp
    dsimp [vadd, Function.comp]
    rw [hplanar q hq]
    ring
  have hcx : bboxCenterX (legend_local_core 0 0 outline) = 0 := by
    have hmap : xCoords (legend_local_core 0 0 outline) =
        (recenter_xy outline).map (fun p => p.x + 0) := by
      unfold legend_local_core translate xCoords
      rw [List.map_map]
      rfl
    unfold bboxCenterX
    rw [hmap, center_map_add Vec.x 0 (recenter_xy outline) hrecne]
    have h1 : (listMin ((recenter_xy outline).map Vec.x) +
        listMax ((recenter_xy outline).map Vec.x)) / 2 = 0 := hrec.1
    rw [h1]
    ring
  have hcy : bboxCenterY (legend_local_core 0 0 outline) = 0 := by
    have hmap : yCoords (legend_local_core 0 0 outline) =
        (recenter_xy outline).map (fun p => p.y + 0) := by
      unfold legend_local_core translate yCoords
      rw [List.map_map]
      rfl
    unfold bboxCenterY
    rw [hmap, center_map_add Vec.y 0 (recenter_xy outline) hrecne]
    have h1 : (listMin ((recenter_xy outline).map Vec.y) +
        listMax ((recenter_xy outline).map Vec.y)) / 2 = 0 := hrec.2
    rw [h1]
    ring
  exact placed_bbox_center (legend_local_core 0 0 outline) hs hz hcx hcy

/-- Claim C8 (witness): the theorem applied to a concrete planar
two-point outline. -/
theorem legend_recenter_centered_witness :
    (bboxCenterX (recenter_xy [⟨0, 0, 0⟩, ⟨2, 1, 0⟩]) = 0 ∧
      bboxCenterY (recenter_xy [⟨0, 0, 0⟩, ⟨2, 1, 0⟩]) = 0) ∧
    (∀ (nm : String) (rot : Rot), (nm, rot) ∈ FACE_ROTATION → ∀ T : Vec,
      bboxCenterX (placeApply ⟨T, rot⟩
        (legend_local_core 0 0 [⟨0, 0, 0⟩, ⟨2, 1, 0⟩])) = T.x ∧
      bboxCenterY (placeApply ⟨T, rot⟩
        (legend_local_core 0 0 [⟨0, 0, 0⟩, ⟨2, 1, 0⟩])) = T.y) :=
  legend_recenter_centered [⟨0, 0, 0⟩, ⟨2, 1, 0⟩] (by decide)
    (of_decide_eq_true (by with_unfolding_all rfl))

set_option maxRecDepth 8000 in
/-- Claim C8 (counterexample): `make_face_plane_placement` on a face
with midpoint normal (12/25, 9/25, 20/25) (unit, with rational lengths
throughout) succeeds with an orthonormal frame that is not a signed
axis permutation.  Placing the already-centered planar outline
{(-1,-1/2), (1,-1/2), (-1,1/2)} with zero offset into this frame (the
`core.py` pipeline's placement, frame origin at (0,0,0)) yields a world
shape whose XY bounding-box centroid has X coordinate 8/25, not the
frame origin's projection 0 — refuting the claim's assertion that the
placed legend's XY bounding-box centroid coincides with the frame
origin's projection. -/
theorem placed_center_off_for_general_frame :
    make_face_plane_placement ⟨some ⟨12 / 25, 9 / 25, 20 / 25⟩, ⟨0, 0, 0⟩⟩ =
      .ok ⟨⟨0, 0, 0⟩, ⟨-3 / 5, 4 / 5, 0⟩, ⟨-16 / 25, -12 / 25, 3 / 5⟩,
        ⟨12 / 25, 9 / 25, 20 / 25⟩⟩ ∧
    bboxCenterX (placeApply
      ⟨⟨0, 0, 0⟩, ⟨⟨-3 / 5, 4 / 5, 0⟩, ⟨-16 / 25, -12 / 25, 3 / 5⟩,
        ⟨12 / 25, 9 / 25, 20 / 25⟩⟩⟩
      (legend_local_core 0 0 [⟨-1, -1 / 2, 0⟩, ⟨1, -1 / 2, 0⟩, ⟨-1, 1 / 2, 0⟩])) =
      8 / 25 ∧
    (8 / 25 : ℚ) ≠ (⟨(0 : ℚ), 0, 0⟩ : Vec).x ∧
    ([⟨-1, -1 / 2, 0⟩, ⟨1, -1 / 2, 0⟩, ⟨-1, 1 / 2, 0⟩] : Shape) ≠ [] ∧
    (∀ p ∈ ([⟨-1, -1 / 2, 0⟩, ⟨1, -1 / 2, 0⟩, ⟨-1, 1 / 2, 0⟩] : Shape), p.z = 0) :=
  ⟨by with_unfolding_all rfl, by with_unfolding_all rfl,
   of_decide_eq_true (by with_unfolding_all rfl),
   of_decide_eq_true (by with_unfolding_all rfl),
   of_decide_eq_true (by with_unfolding_all rfl)⟩

end KeycapGen
